import Mathlib

/-!
# Verification of the relay-mesh broker core

A shallow embedding of `internal/broker/broker.go` (and the tool handlers
that wrap it) from the relay-mesh repository.  Go strings are modelled as
`List Char` (runes); Go maps as association lists; `time.Time` as `Nat`
instants; the NATS transport as an explicit publish log plus immediate
delivery to every agent whose subscription subject matches the published
subject (the broker subscribes each agent to its own subject at
registration time, and the subscription callback appends the parsed
message to that agent's queue).  Random id generation
(`randomID`) is modelled by passing the generated id explicitly.
-/

namespace RelayMesh

/-- Go strings, modelled as rune sequences. -/
abbrev Str := List Char

/-- Trim characters satisfying `p` from both ends of a string.
`strings.TrimSpace` and `strings.Trim(s, "-")` both have this shape. -/
def trimEnds (p : Char → Bool) (s : Str) : Str :=
  ((s.dropWhile p).reverse.dropWhile p).reverse

/-- `strings.TrimSpace` (ASCII whitespace model of `unicode.IsSpace`). -/
def goTrimSpace (s : Str) : Str := trimEnds Char.isWhitespace s

/-- `strings.ToLower` (ASCII model of full-Unicode lowering). -/
def goToLower (s : Str) : Str := s.map Char.toLower

/-- `strings.ReplaceAll s (single char old) (single char new)`. -/
def replaceChar (a b : Char) (s : Str) : Str :=
  s.map (fun c => if c = a then b else c)

/-- The camelCase/PascalCase boundary test from `normalizeProjectName`:
hyphenate before rune `r` at index `i` when `i > 0`, `r` is upper case and
either the previous rune is lower case, or the previous rune is upper case
and the next rune is lower case. -/
def camelBoundary (runes : Str) (i : Nat) (r : Char) : Bool :=
  if decide (i > 0) && r.isUpper then
    let prev := runes.getD (i - 1) ' '
    if prev.isLower then true
    else prev.isUpper && decide (i + 1 < runes.length) && (runes.getD (i + 1) ' ').isLower
  else false

/-- The hyphen-inserting loop of `normalizeProjectName` (lines 743-756). -/
def camelSplit (runes : Str) : Str :=
  runes.enum.foldl
    (fun buf ir => if camelBoundary runes ir.1 ir.2 then buf ++ ['-', ir.2] else buf ++ [ir.2])
    []

/-- One-pass worker collapsing hyphen runs; the flag records whether the
previous emitted character was part of a hyphen run. -/
def collapseHyphensAux : Bool → Str → Str
  | _, [] => []
  | prevHyphen, c :: rest =>
    if c = '-' then
      if prevHyphen then collapseHyphensAux true rest
      else '-' :: collapseHyphensAux true rest
    else c :: collapseHyphensAux false rest

/-- Collapse every run of hyphens to a single hyphen: the observable result
of the `for strings.Contains(s, "--") { s = strings.ReplaceAll(s, "--", "-") }`
fixpoint loop in `normalizeProjectName` (the loop terminates exactly when
no two adjacent hyphens remain, which this one-pass collapse produces). -/
def collapseHyphens (s : Str) : Str := collapseHyphensAux false s

/-- `strings.Trim(s, "-")`. -/
def trimHyphens (s : Str) : Str := trimEnds (fun c => c = '-') s

/-- `normalizeProjectName` (broker.go lines 736-767). -/
def normalizeProjectName (s0 : Str) : Str :=
  let s := goTrimSpace s0
  if s = [] then s
  else
    let s := camelSplit s
    let s := goToLower s
    let s := replaceChar ' ' '-' s
    let s := replaceChar '_' '-' s
    let s := collapseHyphens s
    trimHyphens s

example : "ab".data = ['a', 'b'] := rfl
example : normalizeProjectName "My ProjectName".data = "my-project-name".data := by decide
example : normalizeProjectName "-\tab".data = ['\t', 'a', 'b'] := by decide
example : normalizeProjectName ['\t', 'a', 'b'] = ['a', 'b'] := by decide

/-! ## Discovery engine (broker.go lines 899-1001) -/

/-- One-pass worker for `fieldsFunc`; `acc` is the reversed current run of
non-separator characters. -/
def fieldsFuncAux (sep : Char → Bool) : Str → Str → List Str
  | [], acc => if acc = [] then [] else [acc.reverse]
  | c :: cs, acc =>
    if sep c then
      if acc = [] then fieldsFuncAux sep cs []
      else acc.reverse :: fieldsFuncAux sep cs []
    else fieldsFuncAux sep cs (c :: acc)

/-- `strings.FieldsFunc`: the maximal runs of characters on which `sep` is
false, in order; separator runs and empty fields are dropped. -/
def fieldsFunc (sep : Char → Bool) (s : Str) : List Str :=
  fieldsFuncAux sep s []

/-- `tokenize` (lines 945-957): lowercase, split on non-alphanumeric runes,
trim each part and drop empties. -/
def tokenize (s : Str) : List Str :=
  let parts := fieldsFunc (fun r => !(r.isAlpha || r.isDigit)) (goToLower s)
  (parts.map goTrimSpace).filter (fun p => p ≠ [])

/-- `allowedDistance` (lines 959-968). -/
def allowedDistance (n : Nat) : Nat :=
  if n ≤ 4 then 1 else if n ≤ 8 then 2 else 3

/-- Inner loop of a `levenshtein` row (lines 988-997): given the previous
row starting at index `j-1` (`pjm1 :: ptail`), the value `left = curr[j-1]`
just computed, and the remaining characters of `b`, produce
`curr[j], curr[j+1], …` via `curr[j] = min(prev[j]+1, curr[j-1]+1,
prev[j-1]+cost)`. -/
def levRowLoop (ai : Char) : Str → Nat → List Nat → List Nat
  | [], _, _ => []
  | _ :: _, _, [] => []
  | bj :: brest, left, pjm1 :: ptail =>
    let cost := if ai = bj then 0 else 1
    let del := ptail.headD 0 + 1
    let ins := left + 1
    let sub := pjm1 + cost
    let cj := min del (min ins sub)
    cj :: levRowLoop ai brest cj ptail

/-- Row `i` of the `levenshtein` dynamic program (`prev` after processing
`i` characters of `a`); row `0` is `0, 1, …, len(b)` (lines 981-985). -/
def levRow (a b : Str) : Nat → List Nat
  | 0 => List.range (b.length + 1)
  | i + 1 =>
    let prev := levRow a b i
    (i + 1) :: levRowLoop (a.getD i ' ') b (i + 1) prev

/-- `levenshtein` (lines 970-1001): the early-return special cases followed
by the row-level dynamic program; the result is `prev[len(b)]` of the last
row. -/
def levenshtein (a b : Str) : Nat :=
  if a = b then 0
  else if a = [] then b.length
  else if b = [] then a.length
  else (levRow a b a.length).getD b.length 0

example : levenshtein "kitten".data "sitting".data = 3 := by decide
example : levenshtein ['A'] ['a'] = 1 := by decide

/-- The token-scan loop body of `fuzzyFieldMatch` (lines 915-938), folded
over the haystack tokens with the running `best`. -/
def tokenBestStep (needle : Str) (best : Nat) (w : Str) : Nat :=
  if w = needle then max best 200
  else if needle <+: w ∨ w <+: needle then max best 150
  else
    let dist := levenshtein needle w
    let maxDist := allowedDistance (max needle.length w.length)
    if dist ≤ maxDist then max best (140 - dist * 20) else best

/-- `fuzzyFieldMatch` (lines 899-943).  `none` models the `(0, false)`
no-match return. -/
def fuzzyFieldMatch (needle0 hay0 : Str) : Option Nat :=
  let needle := goToLower (goTrimSpace needle0)
  let hay := goToLower (goTrimSpace hay0)
  if needle = [] || hay = [] then none
  else if hay = needle then some 200
  else if needle <+: hay then some 180
  else if needle <:+: hay then some 160
  else
    let best := (tokenize hay).foldl (tokenBestStep needle) 0
    if best > 0 then some best else none

example : fuzzyFieldMatch "Distributed".data "distributed-systems".data = some 180 := by decide
example : fuzzyFieldMatch "bak".data "bac end".data = some 120 := by decide
example : fuzzyFieldMatch ['A'] ['a'] = some 200 := by decide

/-! ## Profiles (broker.go lines 29-38, 724-811) -/

/-- `AgentProfile` (lines 29-38). -/
structure AgentProfile where
  name : Str
  description : Str
  project : Str
  role : Str
  github : Str
  branch : Str
  specialization : Str
  status : Str
  deriving DecidableEq

/-- Structured error values standing for the `fmt.Errorf` error returns of
the broker operations; `errText` below recovers the Go message text. -/
inductive BrokerErr where
  | descriptionRequired
  | projectRequired
  | roleRequired
  | specializationRequired
  | agentIdRequired
  | senderRequired
  | bodyRequired
  | senderNotFound (id : Str)
  | targetNotFound (id : Str)
  | agentNotFound (id : Str)
  | transport (msg : Str)
  deriving DecidableEq

/-- The `err.Error()` message text for each modelled error. -/
def errText : BrokerErr → Str
  | .descriptionRequired => "description is required".data
  | .projectRequired => "project is required".data
  | .roleRequired => "role is required".data
  | .specializationRequired => "specialization is required".data
  | .agentIdRequired => "agent_id is required".data
  | .senderRequired => "sender agent_id is required".data
  | .bodyRequired => "body is required".data
  | .senderNotFound id => "sender agent not found: ".data ++ id
  | .targetNotFound id => "target agent not found: ".data ++ id
  | .agentNotFound id => "agent not found: ".data ++ id
  | .transport msg => "jetstream publish: ".data ++ msg

/-- Decidable equality for modelled operation results. -/
instance {E A : Type} [DecidableEq E] [DecidableEq A] : DecidableEq (Except E A) := fun a b =>
  match a, b with
  | .ok x, .ok y =>
    if h : x = y then isTrue (by rw [h]) else isFalse (fun hc => by cases hc; exact h rfl)
  | .error x, .error y =>
    if h : x = y then isTrue (by rw [h]) else isFalse (fun hc => by cases hc; exact h rfl)
  | .ok _, .error _ => isFalse (fun hc => by cases hc)
  | .error _, .ok _ => isFalse (fun hc => by cases hc)

/-- `normalizeProfile` (lines 724-734). -/
def normalizeProfile (p : AgentProfile) : AgentProfile where
  name := goTrimSpace p.name
  description := goTrimSpace p.description
  project := normalizeProjectName p.project
  role := goTrimSpace p.role
  github := goTrimSpace p.github
  branch := goTrimSpace p.branch
  specialization := goTrimSpace p.specialization
  status := goTrimSpace p.status

/-- `validateProfile` (lines 769-783): `none` is a nil error. -/
def validateProfile (p : AgentProfile) : Option BrokerErr :=
  if p.description = [] then some .descriptionRequired
  else if p.project = [] then some .projectRequired
  else if p.role = [] then some .roleRequired
  else if p.specialization = [] then some .specializationRequired
  else none

/-- `applyProfilePatch` (lines 785-811), as a pure function on the
destination profile. -/
def applyProfilePatch (dst patch0 : AgentProfile) : AgentProfile :=
  let patch := normalizeProfile patch0
  { name := if patch.name ≠ [] then patch.name else dst.name
    description := if patch.description ≠ [] then patch.description else dst.description
    project := if patch.project ≠ [] then patch.project else dst.project
    role := if patch.role ≠ [] then patch.role else dst.role
    github := if patch.github ≠ [] then patch.github else dst.github
    branch := if patch.branch ≠ [] then patch.branch else dst.branch
    specialization := if patch.specialization ≠ [] then patch.specialization else dst.specialization
    status := if patch.status ≠ [] then patch.status else dst.status }

/-! ## Broker state (broker.go lines 20-80) -/

/-- The wire `Message` envelope (lines 21-27); `frm`/`dst` are the `From`
and `To` fields (`to` is a Lean keyword); `createdAt` is an abstract UTC
instant. -/
structure Msg where
  id : Str
  frm : Str
  dst : Str
  body : Str
  createdAt : Nat
  deriving DecidableEq

/-- `agentState` (lines 60-69). -/
structure AgentState where
  id : Str
  profile : AgentProfile
  subject : Str
  sessionID : Str
  harness : Str
  queue : List Msg
  lastSeen : Nat
  lastFetch : Nat
  deriving DecidableEq

/-- The `relay.agent.` subject prefix (line 17 and line 131). -/
def subjectPrefix : Str := "relay.agent.".data

/-- The broker's mutable state (lines 72-80): the agents map, the
session index, and — standing for the JetStream transport — the ordered log
of `(subject, message)` publishes.  The per-agent subscriptions are
implicit: each registered agent is subscribed to exactly its own
`subject`. -/
structure BrokerState where
  agents : List (Str × AgentState)
  sessionIndex : List (Str × Str)
  published : List (Str × Msg)
  deriving DecidableEq

/-- The freshly constructed broker state (`New`, lines 96-103). -/
def initialState : BrokerState := ⟨[], [], []⟩

/-- Go map lookup on an association list. -/
def assocFind {α : Type} (k : Str) : List (Str × α) → Option α
  | [] => none
  | (k', v) :: rest => if k' = k then some v else assocFind k rest

/-- Go map assignment `m[k] = v`. -/
def assocSet {α : Type} (k : Str) (v : α) : List (Str × α) → List (Str × α)
  | [] => [(k, v)]
  | (k', v') :: rest => if k' = k then (k, v) :: rest else (k', v') :: assocSet k v rest

/-- Go map `delete(m, k)`. -/
def assocErase {α : Type} (k : Str) (l : List (Str × α)) : List (Str × α) :=
  l.filter (fun kv => kv.1 ≠ k)

/-- In-place mutation of the entry at key `k` through a field update `f`. -/
def assocUpdate {α : Type} (k : Str) (f : α → α) (l : List (Str × α)) : List (Str × α) :=
  l.map (fun kv => if kv.1 = k then (kv.1, f kv.2) else kv)

/-! ## Registration and registry operations (broker.go lines 120-282) -/

/-- Transport delivery of one published message: the JetStream server
hands `m` to every subscription whose subject equals the published
subject; the broker's per-agent callback (lines 143-156) parses it and
appends it to that agent's queue.  Publication and the resulting callback
deliveries are modelled as one atomic step. -/
def deliverToSubject (subj : Str) (m : Msg) (agents : List (Str × AgentState)) :
    List (Str × AgentState) :=
  agents.map (fun kv =>
    if kv.2.subject = subj then (kv.1, { kv.2 with queue := kv.2.queue ++ [m] }) else kv)

/-- `RegisterAgent` (lines 120-168).  `newId` stands for the value produced
by `randomID("ag")`; `now` for `time.Now().UTC()`.  The NATS subscribe and
flush calls are modelled as succeeding. -/
def registerAgentM (s : BrokerState) (newId : Str) (now : Nat) (p0 : AgentProfile) :
    Except BrokerErr Str × BrokerState :=
  let p := normalizeProfile p0
  match validateProfile p with
  | some e => (.error e, s)
  | none =>
    let subject := subjectPrefix ++ newId
    let p := if goTrimSpace p.name = [] then { p with name := newId } else p
    let p := if p.status = [] then { p with status := "idle".data } else p
    let st : AgentState :=
      { id := newId, profile := p, subject := subject, sessionID := [], harness := [],
        queue := [], lastSeen := now, lastFetch := 0 }
    (.ok newId, { s with agents := assocSet newId st s.agents })

/-- `RegisterOrUpdateBySession` (lines 170-226).  The `(id, created, err)`
triple is modelled as `Except` of `(id, created)`.  Note the faithful
mutation order in the dedup branch: the profile patch is stored before
validation, so a failed validation still leaves the patched profile
behind. -/
def registerOrUpdateBySessionM (s : BrokerState) (newId : Str) (now : Nat)
    (sessionID0 : Str) (profile : AgentProfile) :
    Except BrokerErr (Str × Bool) × BrokerState :=
  let sessionID := goTrimSpace sessionID0
  if sessionID = [] then
    match registerAgentM s newId now profile with
    | (.error e, s') => (.error e, s')
    | (.ok id, s') => (.ok (id, true), s')
  else
    match assocFind sessionID s.sessionIndex with
    | some existingID =>
      match assocFind existingID s.agents with
      | none =>
        -- Stale index entry; remove and treat as new.
        let s1 := { s with sessionIndex := assocErase sessionID s.sessionIndex }
        match registerAgentM s1 newId now profile with
        | (.error e, s2) => (.error e, s2)
        | (.ok id, s2) =>
          let s3 := { s2 with
            sessionIndex := assocSet sessionID id s2.sessionIndex,
            agents := assocUpdate id (fun a => { a with sessionID := sessionID }) s2.agents }
          (.ok (id, true), s3)
      | some agent =>
        -- Dedup: update the existing agent's profile.
        let newProf := normalizeProfile (applyProfilePatch agent.profile profile)
        let s1 := { s with
          agents := assocUpdate existingID (fun a => { a with profile := newProf }) s.agents }
        match validateProfile newProf with
        | some e => (.error e, s1)
        | none =>
          let s2 := { s1 with
            agents := assocUpdate existingID
              (fun a => { a with sessionID := sessionID, lastSeen := now }) s1.agents }
          (.ok (existingID, false), s2)
    | none =>
      -- New session: register normally, then index.
      match registerAgentM s newId now profile with
      | (.error e, s1) => (.error e, s1)
      | (.ok id, s1) =>
        let s2 := { s1 with
          sessionIndex := assocSet sessionID id s1.sessionIndex,
          agents := assocUpdate id (fun a => { a with sessionID := sessionID }) s1.agents }
        (.ok (id, true), s2)

/-- `Send` (lines 412-449).  `msgId` stands for `randomID("msg")`; `pubErr`
models the outcome of the `js.Publish` call: `some e` is a transport error
(the message is then neither stored nor delivered), `none` a success that
appends to the stream and triggers the subscription callbacks. -/
def sendM (s : BrokerState) (msgId : Str) (now : Nat) (pubErr : Option Str)
    (frm dst body : Str) : Except BrokerErr Msg × BrokerState :=
  let fromAgent := assocFind frm s.agents
  let toAgent := assocFind dst s.agents
  let s1 :=
    if fromAgent.isSome then
      { s with agents := assocUpdate frm (fun a => { a with lastSeen := now }) s.agents }
    else s
  match fromAgent with
  | none => (.error (.senderNotFound frm), s1)
  | some _ =>
    match toAgent with
    | none => (.error (.targetNotFound dst), s1)
    | some ta =>
      let m : Msg := { id := msgId, frm := frm, dst := dst, body := body, createdAt := now }
      match pubErr with
      | some e => (.error (.transport e), s1)
      | none =>
        (.ok m, { s1 with
          published := s1.published ++ [(ta.subject, m)],
          agents := deliverToSubject ta.subject m s1.agents })

/-- Lexicographic `<` on Go strings (byte-wise in Go, rune-wise here),
used by the sort tie-breakers `targets[i].id < targets[j].id`. -/
def strLt : Str → Str → Bool
  | [], [] => false
  | [], _ :: _ => true
  | _ :: _, [] => false
  | a :: as, b :: bs => if a < b then true else if b < a then false else strLt as bs

/-- `AgentSearchFilter` (lines 52-58). -/
structure AgentSearchFilter where
  query : Str
  project : Str
  role : Str
  specialization : Str
  limit : Int
  deriving DecidableEq

/-- `normalizeFilter` (lines 813-822). -/
def normalizeFilter (f : AgentSearchFilter) : AgentSearchFilter where
  query := goToLower (goTrimSpace f.query)
  project := goToLower (goTrimSpace f.project)
  role := goToLower (goTrimSpace f.role)
  specialization := goToLower (goTrimSpace f.specialization)
  limit := if f.limit ≤ 0 then 20 else f.limit

/-- One hard filter of `matchAgent` (lines 834-854): an empty filter field
contributes `0`; a non-empty one must fuzzy-match and contributes
`bonus + field score`; `none` is the hard-reject early return. -/
def hardFieldScore (fval hay : Str) (bonus : Int) : Option Int :=
  if fval = [] then some 0
  else (fuzzyFieldMatch fval hay).map (fun s => bonus + (s : Int))

/-- `matchAgent` (lines 824-897): returns `(score, matchedTokens, ok)`. -/
def matchAgent (p : AgentProfile) (f : AgentSearchFilter) : Int × Nat × Bool :=
  let project := goToLower p.project
  let role := goToLower p.role
  let spec := goToLower p.specialization
  let name := goToLower p.name
  let desc := goToLower p.description
  let gh := goToLower p.github
  let branch := goToLower p.branch
  match hardFieldScore f.project project 300, hardFieldScore f.role role 250,
      hardFieldScore f.specialization spec 250 with
  | some s1, some s2, some s3 =>
    let score := s1 + s2 + s3
    let hay := [name, desc, project, role, spec, gh, branch]
    if f.query ≠ [] then
      let queryTokens := tokenize f.query
      let ms := queryTokens.foldl
        (fun (acc : Nat × Int) token =>
          let bestOk := hay.foldl
            (fun (bo : Int × Bool) v =>
              match fuzzyFieldMatch token v with
              | none => bo
              | some s => (if (s : Int) > bo.1 then (s : Int) else bo.1, true))
            (0, false)
          if bestOk.2 then (acc.1 + 1, acc.2 + bestOk.1) else acc)
        (0, score)
      if ms.1 = 0 then (0, 0, false)
      else
        let score :=
          if ms.1 < queryTokens.length then ms.2 - ((queryTokens.length - ms.1 : Nat) : Int) * 30
          else ms.2
        (score, ms.1, true)
    else
      let score := if hay.any (fun v => goTrimSpace v ≠ []) then score + 1 else score
      (score, 0, true)
  | _, _, _ => (0, 0, false)

/-- A scored `FindAgents` candidate (lines 289-293). -/
structure Candidate where
  agent : AgentState
  score : Int
  matchedTokens : Nat
  deriving DecidableEq

/-- The `sort.Slice` comparator of `FindAgents` (lines 308-313): higher
score first, ascending id on ties. -/
def candLess (c d : Candidate) : Bool :=
  if c.score = d.score then strLt c.agent.id d.agent.id else decide (c.score > d.score)

/-- The non-strict version of `candLess` used to state sortedness: `c` may
come before `d` exactly when `candLess d c` is false. -/
def candLE (c d : Candidate) : Bool := !candLess d c

/-- The body of the scoring loop of `FindAgents` (lines 296-307): one agent
becomes a scored candidate, or is dropped when `matchAgent` rejects it. -/
def candOf (f : AgentSearchFilter) (a : AgentState) : Option Candidate :=
  match matchAgent a.profile f with
  | (score, mt, true) => some ⟨a, score, mt⟩
  | (_, _, false) => none

/-- `FindAgents` up to selection of the scored candidate list (lines
284-332): materialize the agents (the input list models the map iteration
in some arbitrary order), score and filter, sort by the comparator
(`sort.Slice` is modelled by a deterministic comparison sort;
`findAgents_deterministic` below shows the result does not depend on the
sort's choice among equivalent permutations because the comparator is
strictly total on distinct ids), split
into the full-match primary tier and the partial-match fallback tier, and
choose the tier. -/
def findAgentsChosen (agents : List AgentState) (f0 : AgentSearchFilter) : List Candidate :=
  let f := normalizeFilter f0
  let totalTokens := (tokenize f.query).length
  let all := agents.filterMap (candOf f)
  if all = [] then []
  else
    let sorted := List.insertionSort (fun c d => candLE c d = true) all
    let primary := sorted.filter (fun c => totalTokens = 0 || c.matchedTokens ≥ totalTokens)
    let fallback := sorted.filter (fun c =>
      !(totalTokens = 0 || c.matchedTokens ≥ totalTokens) && c.matchedTokens > 0)
    let chosen := if primary = [] && totalTokens > 0 then fallback else primary
    chosen

/-- The profile snapshot returned for one agent by `ListAgents`,
`FindAgents`, `UpdateAgentProfile` (the `map[string]string` literals). -/
structure AgentView where
  id : Str
  name : Str
  description : Str
  project : Str
  role : Str
  github : Str
  branch : Str
  specialization : Str
  status : Str
  lastSeen : Nat
  deriving DecidableEq

/-- The `map[string]string` projection of one agent (lines 336-347);
`last_seen` stays an abstract instant rather than an RFC3339 string. -/
def agentView (a : AgentState) : AgentView where
  id := a.id
  name := a.profile.name
  description := a.profile.description
  project := a.profile.project
  role := a.profile.role
  github := a.profile.github
  branch := a.profile.branch
  specialization := a.profile.specialization
  status := a.profile.status
  lastSeen := a.lastSeen

/-- `FindAgents` (lines 284-353): the chosen tier, truncated to the limit
and projected. -/
def findAgentsM (agents : List AgentState) (f0 : AgentSearchFilter) : List AgentView :=
  let f := normalizeFilter f0
  ((findAgentsChosen agents f0).take f.limit.toNat).map (fun c => agentView c.agent)

/-- The `sort.Slice` comparator for broadcast targets (lines 535-540). -/
def targetLess (c d : Str × Int) : Bool :=
  if c.2 = d.2 then strLt c.1 d.1 else decide (c.2 > d.2)

/-- Non-strict counterpart of `targetLess` for the model sort. -/
def targetLE (c d : Str × Int) : Bool := !targetLess d c

/-- Target selection inside `Broadcast` (lines 515-541): score every agent
except the sender under the filter, demote partial query matches by 100,
and sort by score descending / id ascending. -/
def broadcastTargets (agents : List (Str × AgentState)) (frm : Str)
    (f : AgentSearchFilter) : List (Str × Int) :=
  let totalTokens := (tokenize f.query).length
  let targets := agents.filterMap (fun kv =>
    if kv.1 = frm then none
    else
      match matchAgent kv.2.profile f with
      | (score, mt, true) =>
        some (kv.1, if totalTokens > 0 && mt < totalTokens then score - 100 else score)
      | (_, _, false) => none)
  List.insertionSort (fun c d => targetLE c d = true) targets

/-- The fan-out loop of `Broadcast` (lines 543-554): send to each target in
order, halting with the partial list on the first `Send` error, and
stopping once the limit is reached.  `msgIds` and `pubErrs` feed each
iteration's `randomID("msg")` value and publish outcome. -/
def broadcastLoop (s : BrokerState) (msgIds : List Str) (now : Nat)
    (pubErrs : List (Option Str)) (frm body : Str) (limit : Int) :
    List Str → List Msg → (List Msg × Option BrokerErr) × BrokerState
  | [], out => ((out, none), s)
  | t :: ts, out =>
    match sendM s (msgIds.headD []) now (pubErrs.headD none) frm t body with
    | (.error e, s') => ((out, some e), s')
    | (.ok m, s') =>
      let out' := out ++ [m]
      if limit ≤ (out'.length : Int) then ((out', none), s')
      else broadcastLoop s' msgIds.tail now pubErrs.tail frm body limit ts out'

/-- `Broadcast` (lines 500-555). -/
def broadcastM (s : BrokerState) (msgIds : List Str) (now : Nat)
    (pubErrs : List (Option Str)) (frm body : Str) (f0 : AgentSearchFilter) :
    (List Msg × Option BrokerErr) × BrokerState :=
  let f := normalizeFilter f0
  if goTrimSpace frm = [] then (([], some .senderRequired), s)
  else if goTrimSpace body = [] then (([], some .bodyRequired), s)
  else
    match assocFind frm s.agents with
    | none => (([], some (.senderNotFound frm)), s)
    | some _ =>
      let s1 := { s with
        agents := assocUpdate frm (fun a => { a with lastSeen := now }) s.agents }
      let targets := broadcastTargets s1.agents frm f
      broadcastLoop s1 msgIds now pubErrs frm body f.limit (targets.map (·.1)) []

/-- `UpdateAgentProfile` (lines 250-282).  As in the Go code the patched
profile is stored before validation runs, so a validation failure leaves
the patched profile in place. -/
def updateAgentProfileM (s : BrokerState) (agentID0 : Str) (patch : AgentProfile) :
    Except BrokerErr AgentView × BrokerState :=
  let agentID := goTrimSpace agentID0
  if agentID = [] then (.error .agentIdRequired, s)
  else
    match assocFind agentID s.agents with
    | none => (.error (.agentNotFound agentID), s)
    | some agent =>
      let newProf := normalizeProfile (applyProfilePatch agent.profile patch)
      let s1 := { s with
        agents := assocUpdate agentID (fun a => { a with profile := newProf }) s.agents }
      match validateProfile newProf with
      | some e => (.error e, s1)
      | none => (.ok (agentView { agent with profile := newProf }), s1)

/-- `AgentStatusEntry` (lines 41-50). -/
structure AgentStatusEntry where
  id : Str
  name : Str
  role : Str
  project : Str
  status : Str
  lastSeen : Nat
  lastFetch : Nat
  unreadMessages : Nat
  deriving DecidableEq

/-- `GetTeamStatus` (lines 598-619): snapshot of agents whose project
contains the lowercased trimmed filter (all agents when it is empty). -/
def getTeamStatus (agents : List (Str × AgentState)) (project0 : Str) :
    List AgentStatusEntry :=
  let project := goToLower (goTrimSpace project0)
  agents.filterMap (fun kv =>
    if project ≠ [] && !(project <:+: goToLower kv.2.profile.project) then none
    else some
      { id := kv.2.id, name := kv.2.profile.name, role := kv.2.profile.role,
        project := kv.2.profile.project, status := kv.2.profile.status,
        lastSeen := kv.2.lastSeen, lastFetch := kv.2.lastFetch,
        unreadMessages := kv.2.queue.length })

/-- `WaitForAgents` (lines 674-692) on a registry that does not change
while the wait is in progress: `minCount ≤ 0` and `timeoutSec ≤ 0` are
replaced by the defaults 2 and 60; the poll loop then returns the team
snapshot with `met = true` as soon as the count reaches the threshold and
with `met = false` once the deadline passes, so on a static registry the
result is decided by the first poll. -/
def waitForAgentsM (agents : List (Str × AgentState)) (project : Str)
    (minCount : Int) (timeoutSec : Int) : List AgentStatusEntry × Bool :=
  let minCount := if minCount ≤ 0 then 2 else minCount
  let _timeoutSec := if timeoutSec ≤ 0 then 60 else timeoutSec
  let sts := getTeamStatus agents project
  (sts, minCount ≤ (sts.length : Int))

/-- A tool-surface result (`mcp.NewToolResultError` / `mcp.NewToolResultText`
with the JSON payloads built by the handlers in the MCP server source). -/
inductive ToolResult where
  | errorText (message : Str)
  | warningEnvelope (recipients : Nat)
  | okEnvelope (recipients : Nat) (messages : List Msg)
  deriving DecidableEq

/-- The tail of `broadcastHandler` (src/unnamed/part_015 lines 1584-1646):
on a `Broadcast` error the handler returns only `err.Error()` as an error
result, discarding the partial message list; on success it returns the
warning envelope for zero recipients or the ok envelope with the
messages. -/
def broadcastHandlerModel (r : List Msg × Option BrokerErr) : ToolResult :=
  match r.2 with
  | some e => .errorText (errText e)
  | none =>
    if r.1.length = 0 then .warningEnvelope 0
    else .okEnvelope r.1.length r.1

/-- `Fetch` (lines 557-583). -/
def fetchM (s : BrokerState) (now : Nat) (agentID : Str) (max0 : Int) :
    Except BrokerErr (List Msg) × BrokerState :=
  let maxN : Nat := if max0 ≤ 0 then 10 else max0.toNat
  match assocFind agentID s.agents with
  | none => (.error (.agentNotFound agentID), s)
  | some agent =>
    let s1 := { s with
      agents := assocUpdate agentID (fun a => { a with lastSeen := now, lastFetch := now })
        s.agents }
    if agent.queue = [] then (.ok [], s1)
    else
      let k := min maxN agent.queue.length
      let s2 := { s1 with
        agents := assocUpdate agentID (fun a => { a with queue := a.queue.drop k }) s1.agents }
      (.ok (agent.queue.take k), s2)

/-! ## Reachable broker states -/

/-- One public broker operation, as a transition between broker states.
The id arguments of the register steps are fresh, reflecting the
`randomID("ag")` contract; all other parameters (clock values, message
ids, publish outcomes, user input) are arbitrary. -/
inductive Step : BrokerState → BrokerState → Prop where
  | register (s : BrokerState) (newId : Str) (now : Nat) (p : AgentProfile)
      (fresh : assocFind newId s.agents = none) :
      Step s (registerAgentM s newId now p).2
  | registerBySession (s : BrokerState) (newId : Str) (now : Nat) (sid : Str)
      (p : AgentProfile) (fresh : assocFind newId s.agents = none) :
      Step s (registerOrUpdateBySessionM s newId now sid p).2
  | send (s : BrokerState) (msgId : Str) (now : Nat) (pubErr : Option Str)
      (frm dst body : Str) :
      Step s (sendM s msgId now pubErr frm dst body).2
  | broadcast (s : BrokerState) (msgIds : List Str) (now : Nat)
      (pubErrs : List (Option Str)) (frm body : Str) (f : AgentSearchFilter) :
      Step s (broadcastM s msgIds now pubErrs frm body f).2
  | fetch (s : BrokerState) (now : Nat) (agentID : Str) (mx : Int) :
      Step s (fetchM s now agentID mx).2

/-- States reachable from the freshly constructed broker through the public
operations. -/
def Reachable (s : BrokerState) : Prop :=
  Relation.ReflTransGen Step initialState s

/-- Claim C1's invariant: every message sitting in any agent's in-memory
queue is addressed (`to` field) to exactly that agent. -/
def QueueInv (s : BrokerState) : Prop :=
  ∀ k a, (k, a) ∈ s.agents → ∀ m ∈ a.queue, m.dst = a.id

/-- The auxiliary registry invariant carried through the induction: every
entry is keyed by its own agent id and subscribed to its own
`relay.agent.<id>` subject, and its queue is well-addressed. -/
def RegistryInvL (agents : List (Str × AgentState)) : Prop :=
  ∀ k a, (k, a) ∈ agents →
    k = a.id ∧ a.subject = subjectPrefix ++ a.id ∧ ∀ m ∈ a.queue, m.dst = a.id

/-- `RegistryInvL` on a broker state. -/
def RegistryInv (s : BrokerState) : Prop := RegistryInvL s.agents

/-! ### Association-list membership lemmas -/

theorem assocFind_mem {α : Type} {k : Str} {v : α} :
    ∀ {l : List (Str × α)}, assocFind k l = some v → (k, v) ∈ l
  | [], h => by simp [assocFind] at h
  | (k', v') :: rest, h => by
    simp only [assocFind] at h
    split at h
    · rename_i hk
      cases h
      subst hk
      exact List.mem_cons_self _ _
    · exact List.mem_cons_of_mem _ (assocFind_mem h)

theorem mem_assocSet {α : Type} {k k' : Str} {v v' : α} :
    ∀ {l : List (Str × α)}, (k', v') ∈ assocSet k v l → (k' = k ∧ v' = v) ∨ (k', v') ∈ l
  | [], h => by
    simp only [assocSet, List.mem_singleton, Prod.mk.injEq] at h
    exact Or.inl h
  | (k₀, v₀) :: rest, h => by
    simp only [assocSet] at h
    split at h
    · rcases List.mem_cons.mp h with h | h
      · cases h
        exact Or.inl ⟨rfl, rfl⟩
      · exact Or.inr (List.mem_cons_of_mem _ h)
    · rcases List.mem_cons.mp h with h | h
      · exact Or.inr (List.mem_cons.mpr (Or.inl h))
      · rcases mem_assocSet h with h' | h'
        · exact Or.inl h'
        · exact Or.inr (List.mem_cons_of_mem _ h')

theorem mem_assocUpdate {α : Type} {k k' : Str} {f : α → α} {v' : α}
    {l : List (Str × α)} (h : (k', v') ∈ assocUpdate k f l) :
    ∃ v₀, (k', v₀) ∈ l ∧ (v' = v₀ ∨ v' = f v₀) := by
  rcases List.mem_map.mp h with ⟨⟨k₀, v₀⟩, hmem, heq⟩
  dsimp only at heq
  split at heq
  · rename_i hk
    cases heq
    exact ⟨v₀, by simpa [hk] using hmem, Or.inr rfl⟩
  · cases heq
    exact ⟨v', hmem, Or.inl rfl⟩

theorem mem_deliverToSubject {subj : Str} {m : Msg} {k' : Str} {a' : AgentState}
    {l : List (Str × AgentState)} (h : (k', a') ∈ deliverToSubject subj m l) :
    ∃ a₀, (k', a₀) ∈ l ∧
      (a' = a₀ ∨ (a₀.subject = subj ∧ a' = { a₀ with queue := a₀.queue ++ [m] })) := by
  rcases List.mem_map.mp h with ⟨⟨k₀, a₀⟩, hmem, heq⟩
  dsimp only at heq
  split at heq
  · rename_i hs
    cases heq
    exact ⟨a₀, hmem, Or.inr ⟨hs, rfl⟩⟩
  · cases heq
    exact ⟨a', hmem, Or.inl rfl⟩

/-! ### Preservation of the registry invariant -/

theorem registryInv_assocUpdate {agents : List (Str × AgentState)} {k : Str}
    {f : AgentState → AgentState} (h : RegistryInvL agents)
    (hf : ∀ a, (f a).id = a.id ∧ (f a).subject = a.subject ∧
      ∀ m ∈ (f a).queue, m ∈ a.queue ∨ m.dst = a.id) :
    RegistryInvL (assocUpdate k f agents) := by
  intro k' a' ha'
  rcases mem_assocUpdate ha' with ⟨a₀, hmem, rfl | rfl⟩
  · exact h _ _ hmem
  · obtain ⟨hid, hsub, hq⟩ := h _ _ hmem
    obtain ⟨hfid, hfsub, hfq⟩ := hf a₀
    refine ⟨by rw [hfid, ← hid], by rw [hfsub, hfid, ← hid, hsub, hid], ?_⟩
    intro m hm
    rw [hfid]
    rcases hfq m hm with hm' | hm'
    · exact hq m hm'
    · exact hm'

theorem registryInv_assocSet {agents : List (Str × AgentState)} {k : Str}
    {v : AgentState} (h : RegistryInvL agents)
    (hv : v.id = k ∧ v.subject = subjectPrefix ++ v.id ∧ v.queue = []) :
    RegistryInvL (assocSet k v agents) := by
  intro k' a' ha'
  rcases mem_assocSet ha' with ⟨rfl, rfl⟩ | hmem
  · exact ⟨hv.1.symm, hv.2.1, by simp [hv.2.2]⟩
  · exact h _ _ hmem

theorem registryInv_deliver {agents : List (Str × AgentState)} {subj : Str} {m : Msg}
    (h : RegistryInvL agents)
    (hm : ∀ k a, (k, a) ∈ agents → a.subject = subj → m.dst = a.id) :
    RegistryInvL (deliverToSubject subj m agents) := by
  intro k' a' ha'
  rcases mem_deliverToSubject ha' with ⟨a₀, hmem, rfl | ⟨hs, rfl⟩⟩
  · exact h _ _ hmem
  · obtain ⟨hid, hsub, hq⟩ := h _ _ hmem
    refine ⟨hid, hsub, ?_⟩
    intro m' hm'
    rcases List.mem_append.mp hm' with hm' | hm'
    · exact hq m' hm'
    · rw [List.mem_singleton.mp hm']
      exact hm k' a₀ hmem hs

/-- Field updates that do not touch id, subject or queue preserve the
registry invariant under `assocUpdate`. -/
theorem registryInv_assocUpdate_frame {agents : List (Str × AgentState)} {k : Str}
    {f : AgentState → AgentState} (h : RegistryInvL agents)
    (hid : ∀ a, (f a).id = a.id) (hsub : ∀ a, (f a).subject = a.subject)
    (hq : ∀ a, (f a).queue = a.queue) :
    RegistryInvL (assocUpdate k f agents) :=
  registryInv_assocUpdate h fun a => ⟨hid a, hsub a, fun m hm => Or.inl (by rw [← hq a]; exact hm)⟩

theorem registerAgentM_inv {s : BrokerState} {newId : Str} {now : Nat} {p : AgentProfile}
    (h : RegistryInv s) : RegistryInv (registerAgentM s newId now p).2 := by
  unfold registerAgentM
  dsimp only
  split
  · exact h
  · exact registryInv_assocSet h ⟨rfl, rfl, rfl⟩

theorem registerOrUpdateBySessionM_inv {s : BrokerState} {newId : Str} {now : Nat}
    {sid : Str} {p : AgentProfile} (h : RegistryInv s) :
    RegistryInv (registerOrUpdateBySessionM s newId now sid p).2 := by
  unfold registerOrUpdateBySessionM
  dsimp only
  by_cases hsid : goTrimSpace sid = []
  · rw [if_pos hsid]
    have h' : RegistryInv (registerAgentM s newId now p).2 := registerAgentM_inv h
    rcases hr : registerAgentM s newId now p with ⟨r, s'⟩
    rw [hr] at h'
    cases r
    · exact h'
    · exact h'
  · rw [if_neg hsid]
    rcases hidx : assocFind (goTrimSpace sid) s.sessionIndex with _ | existingID
    · simp only [hidx]
      have h' : RegistryInv (registerAgentM s newId now p).2 := registerAgentM_inv h
      rcases hr : registerAgentM s newId now p with ⟨r, s1⟩
      rw [hr] at h'
      cases r
      · exact h'
      · exact registryInv_assocUpdate_frame
          (f := fun a => { a with sessionID := goTrimSpace sid }) h'
          (fun _ => rfl) (fun _ => rfl) (fun _ => rfl)
    · simp only [hidx]
      rcases hag : assocFind existingID s.agents with _ | agent
      · simp only [hag]
        have h0 : RegistryInv
            { s with sessionIndex := assocErase (goTrimSpace sid) s.sessionIndex } := h
        have h' : RegistryInv (registerAgentM
            { s with sessionIndex := assocErase (goTrimSpace sid) s.sessionIndex }
            newId now p).2 := registerAgentM_inv h0
        rcases hr : registerAgentM
            { s with sessionIndex := assocErase (goTrimSpace sid) s.sessionIndex }
            newId now p with ⟨r, s2⟩
        rw [hr] at h'
        cases r
        · exact h'
        · exact registryInv_assocUpdate_frame
            (f := fun a => { a with sessionID := goTrimSpace sid }) h'
            (fun _ => rfl) (fun _ => rfl) (fun _ => rfl)
      · simp only [hag]
        have h1 : RegistryInvL (assocUpdate existingID
            (fun a => { a with
              profile := normalizeProfile (applyProfilePatch agent.profile p) }) s.agents) :=
          registryInv_assocUpdate_frame
            (f := fun a => { a with
              profile := normalizeProfile (applyProfilePatch agent.profile p) }) h
            (fun _ => rfl) (fun _ => rfl) (fun _ => rfl)
        split
        · exact h1
        · exact registryInv_assocUpdate_frame
            (f := fun a => { a with sessionID := goTrimSpace sid, lastSeen := now }) h1
            (fun _ => rfl) (fun _ => rfl) (fun _ => rfl)

theorem sendM_inv {s : BrokerState} {msgId : Str} {now : Nat} {pubErr : Option Str}
    {frm dst body : Str} (h : RegistryInv s) :
    RegistryInv (sendM s msgId now pubErr frm dst body).2 := by
  unfold sendM
  dsimp only
  rcases hfa : assocFind frm s.agents with _ | fa
  · simp only [hfa, Option.isSome_none, Bool.false_eq_true, if_false]
    exact h
  · have h1 : RegistryInvL (assocUpdate frm (fun a => { a with lastSeen := now }) s.agents) :=
      registryInv_assocUpdate_frame (f := fun a => { a with lastSeen := now }) h
        (fun _ => rfl) (fun _ => rfl) (fun _ => rfl)
    simp only [hfa, Option.isSome_some, if_true]
    rcases hta : assocFind dst s.agents with _ | ta
    · simp only [hta]
      exact h1
    · simp only [hta]
      rcases pubErr with _ | e
      · dsimp only
        refine registryInv_deliver h1 ?_
        intro k a hmem hsubj
        obtain ⟨hid, hsub, _⟩ := h1 k a hmem
        obtain ⟨htaid, htasub, _⟩ := h dst ta (assocFind_mem hta)
        have heq : subjectPrefix ++ a.id = subjectPrefix ++ ta.id := by
          rw [← hsub, ← htasub, hsubj]
        exact htaid.trans (List.append_cancel_left heq).symm
      · dsimp only
        exact h1

theorem fetchM_inv {s : BrokerState} {now : Nat} {agentID : Str} {mx : Int}
    (h : RegistryInv s) : RegistryInv (fetchM s now agentID mx).2 := by
  unfold fetchM
  dsimp only
  rcases hfa : assocFind agentID s.agents with _ | agent
  · simp only [hfa]
    exact h
  · simp only [hfa]
    have h1 : RegistryInvL (assocUpdate agentID
        (fun a => { a with lastSeen := now, lastFetch := now }) s.agents) :=
      registryInv_assocUpdate_frame
        (f := fun a => { a with lastSeen := now, lastFetch := now }) h
        (fun _ => rfl) (fun _ => rfl) (fun _ => rfl)
    by_cases hq : agent.queue = []
    · rw [if_pos hq]
      exact h1
    · rw [if_neg hq]
      exact registryInv_assocUpdate
        (f := fun a => { a with
          queue := a.queue.drop (min (if mx ≤ 0 then 10 else mx.toNat) agent.queue.length) })
        h1 (fun a => ⟨rfl, rfl, fun m hm => Or.inl (List.mem_of_mem_drop hm)⟩)

theorem broadcastLoop_inv : ∀ (ts : List Str) {s : BrokerState} (msgIds : List Str)
    (now : Nat) (pubErrs : List (Option Str)) (frm body : Str) (limit : Int)
    (out : List Msg), RegistryInv s →
    RegistryInv (broadcastLoop s msgIds now pubErrs frm body limit ts out).2
  | [], _, _, _, _, _, _, _, _, h => h
  | t :: ts, s, msgIds, now, pubErrs, frm, body, limit, out, h => by
    unfold broadcastLoop
    have h' : RegistryInv
        (sendM s (msgIds.headD []) now (pubErrs.headD none) frm t body).2 :=
      sendM_inv h
    rcases hsend : sendM s (msgIds.headD []) now (pubErrs.headD none) frm t body with ⟨r, s'⟩
    rw [hsend] at h'
    simp only [hsend]
    cases r
    · exact h'
    · dsimp only
      split
      · exact h'
      · exact broadcastLoop_inv ts msgIds.tail now pubErrs.tail frm body limit _ h'

theorem broadcastM_inv {s : BrokerState} {msgIds : List Str} {now : Nat}
    {pubErrs : List (Option Str)} {frm body : Str} {f : AgentSearchFilter}
    (h : RegistryInv s) : RegistryInv (broadcastM s msgIds now pubErrs frm body f).2 := by
  unfold broadcastM
  dsimp only
  by_cases hf : goTrimSpace frm = []
  · rw [if_pos hf]
    exact h
  · rw [if_neg hf]
    by_cases hb : goTrimSpace body = []
    · rw [if_pos hb]
      exact h
    · rw [if_neg hb]
      rcases hfa : assocFind frm s.agents with _ | fa
      · simp only [hfa]
        exact h
      · simp only [hfa]
        have hst : RegistryInv { s with
            agents := assocUpdate frm (fun a => { a with lastSeen := now }) s.agents } :=
          registryInv_assocUpdate_frame (f := fun a => { a with lastSeen := now }) h
            (fun _ => rfl) (fun _ => rfl) (fun _ => rfl)
        exact broadcastLoop_inv _ _ _ _ _ _ _ _ hst

/-- Every public-operation step preserves the registry invariant. -/
theorem step_inv {s s' : BrokerState} (hstep : Step s s') (h : RegistryInv s) :
    RegistryInv s' := by
  cases hstep with
  | register newId now p _ => exact registerAgentM_inv h
  | registerBySession newId now sid p _ => exact registerOrUpdateBySessionM_inv h
  | send msgId now pubErr frm dst body => exact sendM_inv h
  | broadcast msgIds now pubErrs frm body f => exact broadcastM_inv h
  | fetch now agentID mx => exact fetchM_inv h

/-- Every reachable broker state satisfies the registry invariant. -/
theorem reachable_registryInv {s : BrokerState} (h : Reachable s) : RegistryInv s := by
  induction h with
  | refl => intro k a hmem; simp [initialState] at hmem
  | tail _ hstep ih => exact step_inv hstep ih

/-- **C1** For every broker state reachable through the public operations
(`register_agent`, `register_or_update_by_session`, `send`, `broadcast`,
`fetch`, with transport deliveries routed by per-agent subject), every
`Message` held in any agent's in-memory queue has its `to` field equal to
that agent's id. -/
theorem queue_messages_addressed_to_owner {s : BrokerState} (h : Reachable s) :
    QueueInv s :=
  fun k a hmem m hm => ((reachable_registryInv h) k a hmem).2.2 m hm

/-- A concrete valid profile for witness states. -/
def witProfile : AgentProfile := ⟨[], "d".data, "p".data, "r".data, [], [], "x".data, []⟩

/-- Witness state: one agent `a1` registered in the empty broker. -/
def witS1 : BrokerState := (registerAgentM initialState "a1".data 0 witProfile).2

/-- Witness state: a second agent `a2` registered. -/
def witS2 : BrokerState := (registerAgentM witS1 "a2".data 1 witProfile).2

/-- Witness state: a message sent from `a1` to `a2` and delivered. -/
def witS3 : BrokerState := (sendM witS2 "m1".data 2 none "a1".data "a2".data "hi".data).2

theorem witS3_reachable : Reachable witS3 :=
  Relation.ReflTransGen.tail
    (Relation.ReflTransGen.tail
      (Relation.ReflTransGen.tail Relation.ReflTransGen.refl
        (Step.register initialState "a1".data 0 witProfile (by decide)))
      (Step.register witS1 "a2".data 1 witProfile (by decide)))
    (Step.send witS2 "m1".data 2 none "a1".data "a2".data "hi".data)

/-- Witness for C1: a concrete reachable state (two registrations and one
delivered send; agent `a2`'s queue is non-empty there). -/
theorem queue_messages_addressed_to_owner_witness : Reachable witS3 ∧ QueueInv witS3 :=
  ⟨witS3_reachable, queue_messages_addressed_to_owner witS3_reachable⟩

example : (assocFind "a2".data witS3.agents).map (fun a => a.queue.length) = some 1 := by decide

/-! ## C9: frame of a failed Send (unknown target) -/

/-- **C9** If `Send` is called with an existing sender and a target id not
present in the registry, it returns a target-not-found error, and the
resulting state differs from the input state only in the sender's
`last_seen`, which has already been advanced to the current time; in
particular nothing is published and the session index is untouched. -/
theorem send_target_missing_frame {s : BrokerState} {msgId : Str} {now : Nat}
    {pubErr : Option Str} {frm dst body : Str} {fa : AgentState}
    (hfrom : assocFind frm s.agents = some fa)
    (hto : assocFind dst s.agents = none) :
    sendM s msgId now pubErr frm dst body =
      (.error (.targetNotFound dst),
        { s with agents := assocUpdate frm (fun a => { a with lastSeen := now }) s.agents }) := by
  unfold sendM
  simp [hfrom, hto]

/-- The agent record created for `a1` in `witS1`. -/
def witA1 : AgentState :=
  { id := "a1".data,
    profile := ⟨"a1".data, "d".data, "p".data, "r".data, [], [], "x".data, "idle".data⟩,
    subject := subjectPrefix ++ "a1".data, sessionID := [], harness := [],
    queue := [], lastSeen := 0, lastFetch := 0 }

/-- Witness for C9 at a concrete state: sender `a1` exists, target `zz`
does not. -/
theorem send_target_missing_frame_witness :
    sendM witS1 "m2".data 5 none "a1".data "zz".data "b".data =
      (.error (.targetNotFound "zz".data),
        { witS1 with
          agents := assocUpdate "a1".data (fun a => { a with lastSeen := 5 }) witS1.agents }) :=
  @send_target_missing_frame witS1 ("m2".data) 5 none ("a1".data) ("zz".data)
    ("b".data) witA1 (by decide) (by decide)

/-! ## C10: register_or_update_by_session with a blank session id -/

theorem assocFind_assocSet_self {α : Type} (k : Str) (v : α) :
    ∀ (l : List (Str × α)), assocFind k (assocSet k v l) = some v
  | [] => by simp [assocSet, assocFind]
  | (k', v') :: rest => by
    by_cases hk : k' = k
    · simp [assocSet, assocFind, hk]
    · simp only [assocSet, if_neg hk, assocFind]
      exact assocFind_assocSet_self k v rest

/-- **C10** `register_or_update_by_session` with a session id that is empty
after trimming degenerates to plain registration: given a valid profile, a
new agent is created under the fresh id, `created = true` is returned, the
session index is unchanged, and the new agent carries no session
binding. -/
theorem register_by_session_blank_sid {s : BrokerState} {newId : Str} {now : Nat}
    {sid : Str} {p : AgentProfile} (hsid : goTrimSpace sid = [])
    (hvalid : validateProfile (normalizeProfile p) = none) :
    (registerOrUpdateBySessionM s newId now sid p).1 = .ok (newId, true) ∧
    (registerOrUpdateBySessionM s newId now sid p).2.sessionIndex = s.sessionIndex ∧
    ∃ st : AgentState,
      assocFind newId (registerOrUpdateBySessionM s newId now sid p).2.agents = some st ∧
      st.id = newId ∧ st.sessionID = [] ∧ st.queue = [] := by
  unfold registerOrUpdateBySessionM registerAgentM
  simp only [hsid, hvalid, reduceIte]
  exact ⟨trivial, trivial, _, assocFind_assocSet_self _ _ _, rfl, rfl, rfl⟩

/-- Witness for C10 at concrete inputs: blank session id `"  "`, valid
profile, empty starting broker. -/
theorem register_by_session_blank_sid_witness :
    ((registerOrUpdateBySessionM initialState "a9".data 7 "  ".data witProfile).1 =
        .ok ("a9".data, true) ∧
      (registerOrUpdateBySessionM initialState "a9".data 7 "  ".data witProfile).2.sessionIndex =
        initialState.sessionIndex ∧
      ∃ st : AgentState,
        assocFind "a9".data
            (registerOrUpdateBySessionM initialState "a9".data 7 "  ".data witProfile).2.agents =
          some st ∧ st.id = "a9".data ∧ st.sessionID = [] ∧ st.queue = []) :=
  register_by_session_blank_sid (by decide) (by decide)

/-! ## C6: wait_for_agents with min_count = 0 -/

/-- **C6 (counterexample)** `wait_for_agents` with `min_count = 0` on an
empty registry does not return `met = true`: the code replaces the
non-positive `min_count` by the default 2, and with no registered agents
the wait times out with `met = false`, contradicting the claim that
`min_count = 0` returns immediately with `met = true` for every project
and timeout. -/
theorem wait_for_agents_zero_not_met :
    (waitForAgentsM [] "p".data 0 30).2 = false := by decide

/-- **C6 (amended)** `wait_for_agents` treats `min_count ≤ 0` — in
particular `min_count = 0` — as the default threshold 2: the call behaves
exactly like `min_count = 2`, and on a registry that does not change
during the wait it reports `met = true` iff at least 2 agents match the
project. -/
theorem wait_for_agents_zero_uses_default (agents : List (Str × AgentState))
    (project : Str) (timeoutSec : Int) :
    waitForAgentsM agents project 0 timeoutSec =
      waitForAgentsM agents project 2 timeoutSec ∧
    ((waitForAgentsM agents project 0 timeoutSec).2 = true ↔
      2 ≤ (getTeamStatus agents project).length) := by
  refine ⟨rfl, ?_⟩
  unfold waitForAgentsM
  simp

/-! ## C7: update_agent_profile accepts any non-empty status -/

/-- The patch `{status: "banana"}` used as C7's failing input. -/
def witBadPatch : AgentProfile := ⟨[], [], [], [], [], [], [], "banana".data⟩

/-- **C7 (code behaviour at the failing input)** `update_agent_profile`
with the status `"banana"` — non-empty and not one of `idle`, `working`,
`blocked`, `done` — succeeds and stores the bogus status: neither
`validateProfile` nor any handler checks the status enum, contradicting
the documented value set and the `InvalidArgument` taxonomy. -/
theorem update_profile_accepts_bad_status :
    ((updateAgentProfileM witS1 "a1".data witBadPatch).1.toOption).map (fun v => v.status) =
      some "banana".data ∧
    (assocFind "a1".data (updateAgentProfileM witS1 "a1".data witBadPatch).2.agents).map
      (fun a => a.profile.status) = some "banana".data := by decide

/-! ## C2: broadcast fan-out halts on a Send failure with the partial list -/

/-- The envelopes the fan-out loop constructs for a target list, with the
same message-id consumption as `broadcastLoop`. -/
def fanoutMsgs (msgIds : List Str) (now : Nat) (frm body : Str) : List Str → List Msg
  | [] => []
  | t :: ts =>
    { id := msgIds.headD [], frm := frm, dst := t, body := body, createdAt := now } ::
      fanoutMsgs msgIds.tail now frm body ts

theorem assocFind_isSome_of_mem {α : Type} {k : Str} {v : α} :
    ∀ {l : List (Str × α)}, (k, v) ∈ l → (assocFind k l).isSome = true
  | (k₀, v₀) :: rest, h => by
    simp only [assocFind]
    split
    · rfl
    · rename_i hk
      rcases List.mem_cons.mp h with h | h
      · cases h; exact absurd rfl hk
      · exact assocFind_isSome_of_mem h

/-- Mapping a key-preserving function over an association list preserves
which keys are found. -/
theorem assocFind_map_isSome {α : Type} {g : Str × α → Str × α}
    (hg : ∀ kv, (g kv).1 = kv.1) (k : Str) :
    ∀ (l : List (Str × α)), (assocFind k (l.map g)).isSome = (assocFind k l).isSome
  | [] => rfl
  | (k₀, v₀) :: rest => by
    rcases hgkv : g (k₀, v₀) with ⟨k₁, v₁⟩
    have hk₁ : k₁ = k₀ := by
      have := hg (k₀, v₀); rw [hgkv] at this; exact this
    subst hk₁
    simp only [List.map_cons, hgkv, assocFind]
    split
    · rfl
    · exact assocFind_map_isSome hg k rest

/-- `Send` never changes which agent ids exist. -/
theorem sendM_keys {s : BrokerState} {msgId : Str} {now : Nat} {pubErr : Option Str}
    {frm dst body : Str} (k : Str) :
    (assocFind k (sendM s msgId now pubErr frm dst body).2.agents).isSome =
      (assocFind k s.agents).isSome := by
  have hupd : ∀ (f : AgentState → AgentState) (l : List (Str × AgentState)) (k₀ : Str),
      (assocFind k (assocUpdate k₀ f l)).isSome = (assocFind k l).isSome := fun f l k₀ =>
    assocFind_map_isSome (fun kv => by split <;> rfl) k l
  have hdel : ∀ (subj : Str) (m : Msg) (l : List (Str × AgentState)),
      (assocFind k (deliverToSubject subj m l)).isSome = (assocFind k l).isSome :=
    fun subj m l => assocFind_map_isSome (fun kv => by split <;> rfl) k l
  unfold sendM
  dsimp only
  rcases hfa : assocFind frm s.agents with _ | fa
  · simp [hfa]
  · simp only [hfa, Option.isSome_some, if_true]
    rcases hta : assocFind dst s.agents with _ | ta
    · simp only [hta]
      exact hupd _ _ _
    · rcases pubErr with _ | e
      · simp only [hta]
        exact (hdel _ _ _).trans (hupd _ _ _)
      · simp only [hta]
        exact hupd _ _ _

/-- A `Send` whose publish succeeds, between existing agents, returns the
freshly constructed envelope. -/
theorem sendM_ok_fst {s : BrokerState} {msgId : Str} {now : Nat} {frm dst body : Str}
    (hf : (assocFind frm s.agents).isSome = true)
    (ht : (assocFind dst s.agents).isSome = true) :
    (sendM s msgId now none frm dst body).1 =
      .ok { id := msgId, frm := frm, dst := dst, body := body, createdAt := now } := by
  obtain ⟨fa, hfa⟩ := Option.isSome_iff_exists.mp hf
  obtain ⟨ta, hta⟩ := Option.isSome_iff_exists.mp ht
  unfold sendM
  simp [hfa, hta]

/-- A `Send` between existing agents whose publish fails surfaces the
transport error. -/
theorem sendM_transport_fst {s : BrokerState} {msgId : Str} {now : Nat} {e : Str}
    {frm dst body : Str} (hf : (assocFind frm s.agents).isSome = true)
    (ht : (assocFind dst s.agents).isSome = true) :
    (sendM s msgId now (some e) frm dst body).1 = .error (.transport e) := by
  obtain ⟨fa, hfa⟩ := Option.isSome_iff_exists.mp hf
  obtain ⟨ta, hta⟩ := Option.isSome_iff_exists.mp ht
  unfold sendM
  simp [hfa, hta]

theorem getD_tail {α : Type} (l : List α) (i : Nat) (d : α) :
    l.tail.getD i d = l.getD (i + 1) d := by
  cases l <;> rfl

/-- The fan-out loop halts at the first failing `Send` and returns exactly
the envelopes already sent, paired with that error. -/
theorem broadcastLoop_halts_on_error :
    ∀ (ts1 : List Str) {s : BrokerState} (msgIds : List Str) (now : Nat)
      (pubErrs : List (Option Str)) (frm t body : Str) (ts2 : List Str)
      (limit : Int) (out : List Msg) (e : Str),
      (assocFind frm s.agents).isSome = true →
      (∀ u ∈ ts1, (assocFind u s.agents).isSome = true) →
      (assocFind t s.agents).isSome = true →
      (∀ i < ts1.length, pubErrs.getD i none = none) →
      pubErrs.getD ts1.length none = some e →
      ((out.length + ts1.length : Nat) : Int) < limit →
      (broadcastLoop s msgIds now pubErrs frm body limit (ts1 ++ t :: ts2) out).1 =
        (out ++ fanoutMsgs msgIds now frm body ts1, some (.transport e))
  | [], s, msgIds, now, pubErrs, frm, t, body, ts2, limit, out, e,
    hf, _, ht, _, herr, _ => by
    have hhead : pubErrs.headD none = some e := by
      rw [show pubErrs.headD none = pubErrs.getD 0 none from by cases pubErrs <;> rfl]
      exact herr
    have hr : (sendM s (msgIds.headD []) now (some e) frm t body).1 =
        .error (.transport e) := sendM_transport_fst hf ht
    simp only [List.nil_append, fanoutMsgs, List.append_nil]
    unfold broadcastLoop
    rcases hsend : sendM s (msgIds.headD []) now (pubErrs.headD none) frm t body with ⟨r, s'⟩
    rw [hhead] at hsend
    rw [hsend] at hr
    subst hr
    rfl
  | t1 :: ts1, s, msgIds, now, pubErrs, frm, t, body, ts2, limit, out, e,
    hf, hts, ht, hok, herr, hlim => by
    have ht1 : (assocFind t1 s.agents).isSome = true :=
      hts t1 (List.mem_cons_self _ _)
    have hhead : pubErrs.headD none = none := by
      rw [show pubErrs.headD none = pubErrs.getD 0 none from by cases pubErrs <;> rfl]
      exact hok 0 (by simp)
    have hr : (sendM s (msgIds.headD []) now none frm t1 body).1 =
        .ok { id := msgIds.headD [], frm := frm, dst := t1, body := body, createdAt := now } :=
      sendM_ok_fst hf ht1
    simp only [List.cons_append]
    unfold broadcastLoop
    rcases hsend : sendM s (msgIds.headD []) now (pubErrs.headD none) frm t1 body with ⟨r, s'⟩
    rw [hhead] at hsend
    rw [hsend] at hr
    subst hr
    dsimp only
    have hkeys : ∀ k, (assocFind k s'.agents).isSome = (assocFind k s.agents).isSome := by
      intro k
      have : (assocFind k
            (sendM s (msgIds.headD []) now none frm t1 body).2.agents).isSome =
          (assocFind k s.agents).isSome := sendM_keys k
      rw [hsend] at this
      exact this
    have hlim' : ¬(limit ≤ (((out ++
        [({ id := msgIds.headD [], frm := frm, dst := t1, body := body,
            createdAt := now } : Msg)]).length : Nat) : Int)) := by
      simp only [List.length_append, List.length_cons, List.length_nil]
      push_cast
      simp only [List.length_cons] at hlim
      push_cast at hlim
      omega
    rw [if_neg hlim']
    have hrec := broadcastLoop_halts_on_error ts1 (s := s') msgIds.tail now pubErrs.tail
      frm t body ts2 limit
      (out ++ [{ id := msgIds.headD [], frm := frm, dst := t1, body := body, createdAt := now }]) e
      (by rw [hkeys]; exact hf)
      (fun u hu => by rw [hkeys]; exact hts u (List.mem_cons_of_mem _ hu))
      (by rw [hkeys]; exact ht)
      (fun i hi => by rw [getD_tail]; exact hok (i + 1) (by simpa using Nat.succ_lt_succ hi))
      (by rw [getD_tail]; simpa using herr)
      (by simp only [List.length_append, List.length_cons, List.length_nil]
          simp only [List.length_cons] at hlim
          push_cast at hlim ⊢
          omega)
    rw [hrec]
    simp [fanoutMsgs, List.append_assoc]

/-- Every broadcast target id names an agent present in the registry the
targets were selected from. -/
theorem broadcastTargets_mem_isSome {agents : List (Str × AgentState)} {frm u : Str}
    {f : AgentSearchFilter}
    (h : u ∈ (broadcastTargets agents frm f).map (fun x => x.1)) :
    (assocFind u agents).isSome = true := by
  unfold broadcastTargets at h
  rcases List.mem_map.mp h with ⟨⟨u', sc⟩, hmem, huv⟩
  cases huv
  have hmem' := (List.perm_insertionSort
    (fun c d : Str × Int => targetLE c d = true) _).mem_iff.mp hmem
  rcases List.mem_filterMap.mp hmem' with ⟨⟨k, a⟩, hkv, hfm⟩
  dsimp only at hfm
  split at hfm
  · exact absurd hfm (by simp)
  · split at hfm
    · rename_i score mt heq
      cases hfm
      exact assocFind_isSome_of_mem hkv
    · exact absurd hfm (by simp)

/-- **C2 (amended, broker level)** If the `i`-th `Send` of a broadcast
fan-out fails on transport (the first `i` publishes succeed and the next
fails), and fewer envelopes than the limit have been sent, then
`Broker.Broadcast` halts at that recipient and returns exactly the
envelopes already successfully sent together with the transport error. -/
theorem broadcast_partial_on_transport_error {s : BrokerState} {msgIds : List Str}
    {now : Nat} {pubErrs : List (Option Str)} {frm body : Str} {f : AgentSearchFilter}
    {ts1 : List Str} {t : Str} {ts2 : List Str} {e : Str}
    (hfrm : goTrimSpace frm ≠ [])
    (hbody : goTrimSpace body ≠ [])
    (hfa : (assocFind frm s.agents).isSome = true)
    (htargets : (broadcastTargets
        (assocUpdate frm (fun a => { a with lastSeen := now }) s.agents) frm
        (normalizeFilter f)).map (fun x => x.1) = ts1 ++ t :: ts2)
    (hok : ∀ i < ts1.length, pubErrs.getD i none = none)
    (herr : pubErrs.getD ts1.length none = some e)
    (hlimit : ((ts1.length : Nat) : Int) < (normalizeFilter f).limit) :
    (broadcastM s msgIds now pubErrs frm body f).1 =
      (fanoutMsgs msgIds now frm body ts1, some (.transport e)) := by
  obtain ⟨fa, hfa'⟩ := Option.isSome_iff_exists.mp hfa
  have hupdkeys : ∀ k, (assocFind k
      (assocUpdate frm (fun a => { a with lastSeen := now }) s.agents)).isSome =
      (assocFind k s.agents).isSome := fun k =>
    assocFind_map_isSome (fun kv => by split <;> rfl) k s.agents
  unfold broadcastM
  rw [if_neg hfrm, if_neg hbody]
  simp only [hfa']
  have := broadcastLoop_halts_on_error ts1
    (s := { s with agents := assocUpdate frm (fun a => { a with lastSeen := now }) s.agents })
    msgIds now pubErrs frm t body ts2 (normalizeFilter f).limit [] e
    (by dsimp only; rw [hupdkeys]; exact hfa)
    (fun u hu => by
      exact broadcastTargets_mem_isSome
        (show u ∈ (broadcastTargets
            (assocUpdate frm (fun a => { a with lastSeen := now }) s.agents) frm
            (normalizeFilter f)).map (fun x => x.1) from by
          rw [htargets]; exact List.mem_append_left _ hu))
    (by
      exact broadcastTargets_mem_isSome
        (show t ∈ (broadcastTargets
            (assocUpdate frm (fun a => { a with lastSeen := now }) s.agents) frm
            (normalizeFilter f)).map (fun x => x.1) from by
          rw [htargets]; exact List.mem_append_right _ (List.mem_cons_self _ _)))
    hok herr (by simpa using hlimit)
  rw [htargets]
  rw [this]
  simp

/-- The broker used in the C2 witness and counterexample: sender `a1` plus
recipients `b1`, `b2`. -/
def witSB : BrokerState :=
  (registerAgentM (registerAgentM witS1 "b1".data 1 witProfile).2 "b2".data 2 witProfile).2

/-- The C2 scenario: an unfiltered broadcast from `a1` whose first publish
succeeds and whose second publish fails with `"boom"`. -/
def witBroadcast : (List Msg × Option BrokerErr) × BrokerState :=
  broadcastM witSB ["m1".data, "m2".data] 9 [none, some "boom".data] "a1".data "hi".data
    ⟨[], [], [], [], 0⟩

/-- Witness for the amended C2 at the concrete scenario: the broker returns
the one successfully sent envelope together with the transport error. -/
theorem broadcast_partial_on_transport_error_witness :
    witBroadcast.1 =
      ([{ id := "m1".data, frm := "a1".data, dst := "b1".data, body := "hi".data,
          createdAt := 9 }], some (.transport "boom".data)) :=
  @broadcast_partial_on_transport_error witSB ["m1".data, "m2".data] 9
    [none, some "boom".data] ("a1".data) ("hi".data) ⟨[], [], [], [], 0⟩
    ["b1".data] ("b2".data) [] ("boom".data)
    (by decide) (by decide) (by decide) (by decide)
    (by
      intro i hi
      have h1 : i < 1 := by simpa using hi
      have h0 : i = 0 := by omega
      subst h0
      rfl)
    (by rfl) (by decide)

/-- **C2 (counterexample, tool level)** At the same concrete scenario the
`broadcast_message` tool handler returns only the error text: the partial
list of already-sent envelopes is non-empty but absent from the caller's
result, refuting the claim that the caller of `broadcast_message` receives
the partial list together with the error. -/
theorem broadcast_handler_drops_partial :
    broadcastHandlerModel witBroadcast.1 =
      .errorText ("jetstream publish: boom".data) ∧
    witBroadcast.1.1 ≠ [] := by decide

/-! ## String-trimming toolkit (for C5 and C8) -/

theorem dropWhile_head_false {p : Char → Bool} :
    ∀ {l : Str} {a : Char} {t : Str}, l.dropWhile p = a :: t → p a = false
  | b :: l', a, t, h => by
    rw [List.dropWhile_cons] at h
    split at h
    · exact dropWhile_head_false h
    · cases h
      rename_i hb
      exact Bool.of_not_eq_true hb

theorem dropWhile_eq_self_of_head {p : Char → Bool} {l : Str}
    (h : ∀ a t, l = a :: t → p a = false) : l.dropWhile p = l := by
  cases l with
  | nil => rfl
  | cons a t =>
    rw [List.dropWhile_cons, if_neg]
    simp [h a t rfl]

/-- `trimEnds p s` is a prefix of `s.dropWhile p` (trimming the right end
only removes elements from the back). -/
theorem trimEnds_pre (p : Char → Bool) (s : Str) :
    trimEnds p s <+: s.dropWhile p := by
  have h : ((s.dropWhile p).reverse.dropWhile p).reverse <+: (s.dropWhile p).reverse.reverse :=
    List.reverse_prefix.mpr (List.dropWhile_suffix p)
  simpa [trimEnds] using h

/-- The head of `trimEnds p s` does not satisfy `p`. -/
theorem trimEnds_head_false {p : Char → Bool} {s : Str} {a : Char} {t : Str}
    (h : trimEnds p s = a :: t) : p a = false := by
  rcases trimEnds_pre p s with ⟨u, hu⟩
  rw [h] at hu
  exact dropWhile_head_false hu.symm

/-- Trimming both ends is idempotent. -/
theorem trimEnds_idem (p : Char → Bool) (s : Str) :
    trimEnds p (trimEnds p s) = trimEnds p s := by
  have h1 : (trimEnds p s).dropWhile p = trimEnds p s := by
    apply dropWhile_eq_self_of_head
    intro a t h
    exact trimEnds_head_false h
  show (((trimEnds p s).dropWhile p).reverse.dropWhile p).reverse = trimEnds p s
  rw [h1]
  have h2 : (trimEnds p s).reverse.dropWhile p = (trimEnds p s).reverse := by
    apply dropWhile_eq_self_of_head
    intro a t h
    unfold trimEnds at h
    rw [List.reverse_reverse] at h
    exact dropWhile_head_false h
  rw [h2, List.reverse_reverse]

/-- `goTrimSpace` is idempotent. -/
theorem goTrimSpace_idem (s : Str) : goTrimSpace (goTrimSpace s) = goTrimSpace s :=
  trimEnds_idem _ s

/-! ## C5: register_or_update_by_session called twice -/

theorem assocFind_assocUpdate_self {α : Type} (k : Str) (f : α → α) :
    ∀ (l : List (Str × α)), assocFind k (assocUpdate k f l) = (assocFind k l).map f
  | [] => rfl
  | (k₀, v₀) :: rest => by
    simp only [assocUpdate, List.map_cons]
    split
    · rename_i hk
      simp only [assocFind]
      rw [if_pos hk, if_pos hk]
      rfl
    · rename_i hk
      simp only [assocFind]
      rw [if_neg hk, if_neg hk]
      exact assocFind_assocUpdate_self k f rest

/-- `validateProfile` succeeds exactly when the four required fields are
non-empty. -/
theorem validateProfile_eq_none {q : AgentProfile} :
    validateProfile q = none ↔
      q.description ≠ [] ∧ q.project ≠ [] ∧ q.role ≠ [] ∧ q.specialization ≠ [] := by
  unfold validateProfile
  split_ifs with h1 h2 h3 h4 <;> simp_all

/-- Re-validating the re-normalized result of patching any profile with an
already-valid patch succeeds, provided the patch's normalized project name
is stable enough to stay non-empty under a second normalization. -/
theorem validate_patch_again {dst : AgentProfile} {p : AgentProfile}
    (hvalid : validateProfile (normalizeProfile p) = none)
    (hproj2 : normalizeProjectName (normalizeProjectName p.project) ≠ []) :
    validateProfile (normalizeProfile (applyProfilePatch dst p)) = none := by
  obtain ⟨hd, hpr, hr, hs⟩ := validateProfile_eq_none.mp hvalid
  apply validateProfile_eq_none.mpr
  refine ⟨?_, ?_, ?_, ?_⟩
  · show goTrimSpace (if (normalizeProfile p).description ≠ [] then
        (normalizeProfile p).description else dst.description) ≠ []
    rw [if_pos hd]
    show goTrimSpace (goTrimSpace p.description) ≠ []
    rw [goTrimSpace_idem]
    exact hd
  · show normalizeProjectName (if (normalizeProfile p).project ≠ [] then
        (normalizeProfile p).project else dst.project) ≠ []
    rw [if_pos hpr]
    exact hproj2
  · show goTrimSpace (if (normalizeProfile p).role ≠ [] then
        (normalizeProfile p).role else dst.role) ≠ []
    rw [if_pos hr]
    show goTrimSpace (goTrimSpace p.role) ≠ []
    rw [goTrimSpace_idem]
    exact hr
  · show goTrimSpace (if (normalizeProfile p).specialization ≠ [] then
        (normalizeProfile p).specialization else dst.specialization) ≠ []
    rw [if_pos hs]
    show goTrimSpace (goTrimSpace p.specialization) ≠ []
    rw [goTrimSpace_idem]
    exact hs

/-- A successful `RegisterAgent` returns the supplied fresh id, and that id
is found in the resulting registry. -/
theorem registerAgentM_ok {s : BrokerState} {newId : Str} {now : Nat} {p : AgentProfile}
    {id : Str} {s' : BrokerState} (h : registerAgentM s newId now p = (.ok id, s')) :
    id = newId ∧ (assocFind newId s'.agents).isSome = true := by
  unfold registerAgentM at h
  dsimp only at h
  split at h
  · cases h
  · cases h
    refine ⟨rfl, ?_⟩
    rw [assocFind_assocSet_self]
    rfl

/-- After a successful `RegisterOrUpdateBySession` with a non-blank session
id, the session index maps the trimmed session id to the returned agent id
and that agent exists. -/
theorem registerOrUpdateBySessionM_post {s : BrokerState} {newId : Str} {now : Nat}
    {sid : Str} {p : AgentProfile} {id : Str} {c : Bool} {s₁ : BrokerState}
    (hsid : goTrimSpace sid ≠ [])
    (h : registerOrUpdateBySessionM s newId now sid p = (.ok (id, c), s₁)) :
    assocFind (goTrimSpace sid) s₁.sessionIndex = some id ∧
      (assocFind id s₁.agents).isSome = true := by
  unfold registerOrUpdateBySessionM at h
  rw [if_neg hsid] at h
  rcases hidx : assocFind (goTrimSpace sid) s.sessionIndex with _ | existingID
  · simp only [hidx] at h
    rcases hr : registerAgentM s newId now p with ⟨r, s0⟩
    simp only [hr] at h
    cases r with
    | error e => cases h
    | ok rid =>
      cases h
      obtain ⟨hid, hfound⟩ := registerAgentM_ok hr
      subst hid
      constructor
      · exact assocFind_assocSet_self _ _ _
      · rw [assocFind_assocUpdate_self]
        simpa using hfound
  · simp only [hidx] at h
    rcases hag : assocFind existingID s.agents with _ | agent
    · simp only [hag] at h
      rcases hr : registerAgentM
          { s with sessionIndex := assocErase (goTrimSpace sid) s.sessionIndex }
          newId now p with ⟨r, s0⟩
      simp only [hr] at h
      cases r with
      | error e => cases h
      | ok rid =>
        cases h
        obtain ⟨hid, hfound⟩ := registerAgentM_ok hr
        subst hid
        constructor
        · exact assocFind_assocSet_self _ _ _
        · rw [assocFind_assocUpdate_self]
          simpa using hfound
    · simp only [hag] at h
      split at h
      · cases h
      · cases h
        constructor
        · exact hidx
        · rw [assocFind_assocUpdate_self, assocFind_assocUpdate_self, hag]
          rfl

/-- **C5 (amended)** Calling `register_or_update_by_session` twice with the
same non-empty session id and the same valid profile yields the same agent
id both times, with the second call reporting `created = false`, provided
the profile's normalized project name stays non-empty under a second
normalization (true for every project name without exotic whitespace). -/
theorem register_by_session_idempotent {s : BrokerState} {newId : Str} {now : Nat}
    {sid : Str} {p : AgentProfile} {id : Str} {c : Bool} {s₁ : BrokerState}
    {newId2 : Str} {now2 : Nat}
    (hsid : goTrimSpace sid ≠ [])
    (hvalid : validateProfile (normalizeProfile p) = none)
    (hproj2 : normalizeProjectName (normalizeProjectName p.project) ≠ [])
    (hfirst : registerOrUpdateBySessionM s newId now sid p = (.ok (id, c), s₁)) :
    (registerOrUpdateBySessionM s₁ newId2 now2 sid p).1 = .ok (id, false) := by
  obtain ⟨hfound, hagent⟩ := registerOrUpdateBySessionM_post hsid hfirst
  obtain ⟨agent, hag⟩ := Option.isSome_iff_exists.mp hagent
  unfold registerOrUpdateBySessionM
  rw [if_neg hsid]
  simp only [hfound, hag, @validate_patch_again agent.profile p hvalid hproj2]

/-- Witness for the amended C5 at concrete inputs: a fresh session id and a
well-behaved profile on the empty broker. -/
theorem register_by_session_idempotent_witness :
    (registerOrUpdateBySessionM
        (registerOrUpdateBySessionM initialState "a1".data 0 "s1".data witProfile).2
        "a2".data 1 "s1".data witProfile).1 = .ok ("a1".data, false) :=
  @register_by_session_idempotent initialState ("a1".data) 0 ("s1".data) witProfile
    ("a1".data) true
    (registerOrUpdateBySessionM initialState "a1".data 0 "s1".data witProfile).2
    ("a2".data) 1 (by decide) (by decide) (by decide) (by decide)

/-- The pathological profile used in C5's counterexample: its project
field normalizes to a single tab, which a second normalization erases. -/
def witPathological : AgentProfile := ⟨[], "d".data, "-\t-".data, "r".data, [], [], "x".data, []⟩

/-- **C5 (counterexample)** With project `"-\t-"` (which normalizes to the
non-empty string `"\t"`) the first `register_or_update_by_session` call
succeeds, but the second call with the same session id and the same
profile fails with "project is required" instead of returning the same
agent id: re-normalizing the stored `"\t"` yields the empty string. -/
theorem register_by_session_second_call_fails :
    (registerOrUpdateBySessionM initialState "a1".data 0 "s1".data witPathological).1 =
      .ok ("a1".data, true) ∧
    (registerOrUpdateBySessionM
        (registerOrUpdateBySessionM initialState "a1".data 0 "s1".data witPathological).2
        "a2".data 1 "s1".data witPathological).1 = .error .projectRequired := by decide

/-! ## C8: idempotence of project-name normalization -/

theorem uint32_le_iff {a b : UInt32} : a ≤ b ↔ a.toNat ≤ b.toNat := by
  rw [UInt32.le_def, BitVec.le_def]
  exact Iff.rfl

theorem char_toNat_inj {c d : Char} (h : c.toNat = d.toNat) : c = d := by
  apply Char.eq_of_val_eq
  apply UInt32.eq_of_toBitVec_eq
  apply BitVec.eq_of_toNat_eq
  exact h

theorem char_toNat_ofNat_valid {n : Nat} (h : n < 0xd800) : (Char.ofNat n).toNat = n := by
  unfold Char.ofNat
  rw [dif_pos (Or.inl h)]
  rfl

theorem char_isUpper_iff {c : Char} : c.isUpper = true ↔ 65 ≤ c.toNat ∧ c.toNat ≤ 90 := by
  unfold Char.isUpper
  rw [Bool.and_eq_true, decide_eq_true_iff, decide_eq_true_iff, ge_iff_le,
    uint32_le_iff, uint32_le_iff]
  exact Iff.rfl

theorem char_toLower_not_upper (c : Char) : (Char.toLower c).isUpper = false := by
  unfold Char.toLower
  dsimp only
  split
  · rename_i h
    apply Bool.eq_false_iff.mpr
    intro hup
    obtain ⟨h1, h2⟩ := char_isUpper_iff.mp hup
    rw [char_toNat_ofNat_valid (by omega)] at h1 h2
    omega
  · rename_i h
    apply Bool.eq_false_iff.mpr
    intro hup
    exact h (char_isUpper_iff.mp hup)

theorem char_toLower_eq_self {c : Char} (h : c.isUpper = false) : Char.toLower c = c := by
  unfold Char.toLower
  dsimp only
  rw [if_neg]
  intro hc
  have hup : c.isUpper = true := char_isUpper_iff.mpr ⟨hc.1, hc.2⟩
  rw [hup] at h
  cases h

theorem char_isWhitespace_iff {c : Char} :
    c.isWhitespace = true ↔ c.toNat = 32 ∨ c.toNat = 9 ∨ c.toNat = 13 ∨ c.toNat = 10 := by
  unfold Char.isWhitespace
  simp only [Bool.or_eq_true, decide_eq_true_iff]
  constructor
  · rintro (((h | h) | h) | h) <;> subst h <;> decide
  · rintro (h | h | h | h)
    · exact Or.inl (Or.inl (Or.inl (char_toNat_inj (show c.toNat = (' ' : Char).toNat from h))))
    · exact Or.inl (Or.inl (Or.inr (char_toNat_inj (show c.toNat = Char.toNat '\t' from h))))
    · exact Or.inl (Or.inr (char_toNat_inj (show c.toNat = Char.toNat '\r' from h)))
    · exact Or.inr (char_toNat_inj (show c.toNat = Char.toNat '\n' from h))

theorem char_toLower_whitespace (c : Char) :
    (Char.toLower c).isWhitespace = c.isWhitespace := by
  unfold Char.toLower
  dsimp only
  split
  · rename_i h
    have hc : c.isWhitespace = false := by
      apply Bool.eq_false_iff.mpr
      intro hw
      rcases char_isWhitespace_iff.mp hw with h' | h' | h' | h' <;> omega
    have hr : (Char.ofNat (c.toNat + 32)).isWhitespace = false := by
      apply Bool.eq_false_iff.mpr
      intro hw
      rcases char_isWhitespace_iff.mp hw with h' | h' | h' | h' <;>
        rw [char_toNat_ofNat_valid (by omega)] at h' <;> omega
    rw [hc, hr]
  · rfl

theorem dropWhile_eq_self_of_all {p : Char → Bool} {l : Str}
    (h : ∀ c ∈ l, p c = false) : l.dropWhile p = l := by
  apply dropWhile_eq_self_of_head
  intro a t ht
  exact h a (ht ▸ List.mem_cons_self _ _)

theorem trimEnds_eq_self {p : Char → Bool} {s : Str}
    (h1 : s.dropWhile p = s) (h2 : s.reverse.dropWhile p = s.reverse) :
    trimEnds p s = s := by
  unfold trimEnds
  rw [h1, h2, List.reverse_reverse]

theorem trimEnds_eq_self_of_all {p : Char → Bool} {s : Str}
    (h : ∀ c ∈ s, p c = false) : trimEnds p s = s :=
  trimEnds_eq_self (dropWhile_eq_self_of_all h)
    (dropWhile_eq_self_of_all (fun c hc => h c (List.mem_reverse.mp hc)))

theorem trimEnds_reverse_head_false {p : Char → Bool} {s : Str} {a : Char} {t : Str}
    (h : (trimEnds p s).reverse = a :: t) : p a = false := by
  unfold trimEnds at h
  rw [List.reverse_reverse] at h
  exact dropWhile_head_false h

theorem trimEnds_subset {p : Char → Bool} {s : Str} {c : Char}
    (h : c ∈ trimEnds p s) : c ∈ s :=
  (List.dropWhile_sublist p).subset ((trimEnds_pre p s).subset h)

/-- `trimEnds p s` is an infix of `s`. -/
theorem trimEnds_inf (p : Char → Bool) (s : Str) : trimEnds p s <:+: s :=
  (trimEnds_pre p s).isInfix.trans (List.dropWhile_suffix p).isInfix

theorem mem_replaceChar {a b c : Char} {s : Str} (h : c ∈ replaceChar a b s) :
    c = b ∨ (c ∈ s ∧ c ≠ a) := by
  rcases List.mem_map.mp h with ⟨d, hd, hdc⟩
  by_cases hda : d = a
  · rw [if_pos hda] at hdc
    exact Or.inl hdc.symm
  · rw [if_neg hda] at hdc
    exact Or.inr ⟨hdc ▸ hd, hdc ▸ hda⟩

theorem map_eq_self_of {f : Char → Char} : ∀ {s : Str}, (∀ c ∈ s, f c = c) → s.map f = s
  | [], _ => rfl
  | c :: t, h => by
    rw [List.map_cons, h c (List.mem_cons_self _ _),
      map_eq_self_of (fun d hd => h d (List.mem_cons_of_mem _ hd))]

theorem replaceChar_eq_self {a b : Char} {s : Str} (h : ∀ c ∈ s, c ≠ a) :
    replaceChar a b s = s :=
  map_eq_self_of (fun c hc => if_neg (h c hc))

theorem mem_goToLower {c : Char} {s : Str} (h : c ∈ goToLower s) :
    ∃ c₀ ∈ s, c = Char.toLower c₀ := by
  rcases List.mem_map.mp h with ⟨d, hd, hdc⟩
  exact ⟨d, hd, hdc.symm⟩

theorem goToLower_eq_self {s : Str} (h : ∀ c ∈ s, c.isUpper = false) :
    goToLower s = s :=
  map_eq_self_of (fun c hc => char_toLower_eq_self (h c hc))

theorem camel_foldl_eq (runes : Str) :
    ∀ (l : List (Nat × Char)) (buf : Str),
      (∀ q ∈ l, camelBoundary runes q.1 q.2 = false) →
      l.foldl (fun buf ir =>
          if camelBoundary runes ir.1 ir.2 then buf ++ ['-', ir.2] else buf ++ [ir.2]) buf =
        buf ++ l.map (fun q => q.2)
  | [], buf, _ => by simp
  | q :: l, buf, h => by
    rw [List.foldl_cons, if_neg (by simp [h q (List.mem_cons_self _ _)]),
      camel_foldl_eq runes l _ (fun q' hq' => h q' (List.mem_cons_of_mem _ hq'))]
    simp

theorem camelSplit_eq_self {s : Str} (h : ∀ c ∈ s, c.isUpper = false) :
    camelSplit s = s := by
  unfold camelSplit
  rw [camel_foldl_eq s s.enum [] ?hb]
  · rw [List.nil_append, List.enum_map_snd]
  · intro q hq
    have hsnd : q.2 ∈ s := by
      have := List.enum_map_snd s
      rw [← this]
      exact List.mem_map_of_mem _ hq
    unfold camelBoundary
    rw [if_neg]
    simp [h q.2 hsnd]

theorem camel_foldl_mem (runes : Str) :
    ∀ (l : List (Nat × Char)) (buf : Str) (c : Char),
      c ∈ l.foldl (fun buf ir =>
          if camelBoundary runes ir.1 ir.2 then buf ++ ['-', ir.2] else buf ++ [ir.2]) buf →
      c ∈ buf ∨ c = '-' ∨ c ∈ l.map (fun q => q.2)
  | [], buf, c, h => Or.inl h
  | q :: l, buf, c, h => by
    rw [List.foldl_cons] at h
    rcases camel_foldl_mem runes l _ c h with h' | h' | h'
    · split at h'
      · rcases List.mem_append.mp h' with h'' | h''
        · exact Or.inl h''
        · rcases List.mem_cons.mp h'' with h'' | h''
          · exact Or.inr (Or.inl h'')
          · simp only [List.mem_singleton] at h''
            exact Or.inr (Or.inr (by simp [h'']))
      · rcases List.mem_append.mp h' with h'' | h''
        · exact Or.inl h''
        · simp only [List.mem_singleton] at h''
          exact Or.inr (Or.inr (by simp [h'']))
    · exact Or.inr (Or.inl h')
    · exact Or.inr (Or.inr (by simp [List.mem_map] at h' ⊢; tauto))

theorem mem_camelSplit {s : Str} {c : Char} (h : c ∈ camelSplit s) :
    c = '-' ∨ c ∈ s := by
  rcases camel_foldl_mem s s.enum [] c h with h' | h' | h'
  · cases h'
  · exact Or.inl h'
  · right
    rw [← List.enum_map_snd s]
    exact h'

/-! Hyphen-run structure of `collapseHyphens` outputs. -/

/-- Adjacent characters never form a double hyphen. -/
def NotDD (a b : Char) : Prop := ¬(a = '-' ∧ b = '-')

theorem collapseHyphensAux_head_true :
    ∀ {s : Str} {h : Char} {t : Str}, collapseHyphensAux true s = h :: t → h ≠ '-'
  | c :: rest, h, t, he => by
    unfold collapseHyphensAux at he
    split at he
    · exact collapseHyphensAux_head_true he
    · rename_i hc
      cases he
      simpa using hc

theorem collapseHyphensAux_chain : ∀ (b : Bool) (s : Str),
    List.Chain' NotDD (collapseHyphensAux b s)
  | _, [] => List.chain'_nil
  | b, c :: rest => by
    unfold collapseHyphensAux
    split
    · rename_i hc
      subst hc
      cases b
      · apply List.chain'_cons'.mpr
        refine ⟨?_, collapseHyphensAux_chain true rest⟩
        intro y hy
        rcases hh : collapseHyphensAux true rest with _ | ⟨h₀, t₀⟩
        · rw [hh] at hy; cases hy
        · rw [hh] at hy
          cases hy
          exact fun hand => collapseHyphensAux_head_true hh hand.2
      · exact collapseHyphensAux_chain true rest
    · rename_i hc
      apply List.chain'_cons'.mpr
      refine ⟨?_, collapseHyphensAux_chain false rest⟩
      intro y _
      exact fun hand => hc hand.1

theorem collapseHyphensAux_eq_self : ∀ (s : Str), List.Chain' NotDD s →
    ∀ (b : Bool), (b = false ∨ s.head? ≠ some '-') → collapseHyphensAux b s = s
  | [], _, b, _ => rfl
  | c :: rest, hch, b, hb => by
    have hch' := (List.chain'_cons'.mp hch).2
    have hlink := (List.chain'_cons'.mp hch).1
    unfold collapseHyphensAux
    split
    · rename_i hc
      subst hc
      have hb' : b = false := by
        rcases hb with hb | hb
        · exact hb
        · exact absurd rfl hb
      subst hb'
      rw [if_neg (by simp)]
      rw [collapseHyphensAux_eq_self rest hch' true ?_]
      right
      rcases hrest : rest.head? with _ | h₀
      · intro hcon
        cases hcon
      · have h₀mem : h₀ ∈ rest.head? := by rw [hrest]; rfl
        have := hlink h₀ h₀mem
        intro hcon
        cases hcon
        exact this ⟨rfl, rfl⟩
    · rename_i hc
      rw [collapseHyphensAux_eq_self rest hch' false (Or.inl rfl)]

theorem collapseHyphens_chain (s : Str) : List.Chain' NotDD (collapseHyphens s) :=
  collapseHyphensAux_chain false s

theorem collapseHyphens_eq_self {s : Str} (h : List.Chain' NotDD s) :
    collapseHyphens s = s :=
  collapseHyphensAux_eq_self s h false (Or.inl rfl)

theorem mem_collapseHyphensAux :
    ∀ {b : Bool} {s : Str} {c : Char}, c ∈ collapseHyphensAux b s → c ∈ s
  | b, c₀ :: rest, c, h => by
    unfold collapseHyphensAux at h
    split at h
    · rename_i hc
      subst hc
      cases b
      · rcases List.mem_cons.mp h with h' | h'
        · exact h' ▸ List.mem_cons_self _ _
        · exact List.mem_cons_of_mem _ (mem_collapseHyphensAux h')
      · exact List.mem_cons_of_mem _ (mem_collapseHyphensAux h)
    · rcases List.mem_cons.mp h with h' | h'
      · exact h' ▸ List.mem_cons_self _ _
      · exact List.mem_cons_of_mem _ (mem_collapseHyphensAux h')

theorem mem_collapseHyphens {s : Str} {c : Char} (h : c ∈ collapseHyphens s) : c ∈ s :=
  mem_collapseHyphensAux h

/-- **C8 (amended)** Project-name normalization is idempotent on every
string whose whitespace characters are all plain spaces: for such `x`,
`normalize (normalize x) = normalize x`.  (Exotic whitespace such as tabs
survives normalization in the interior, and trimming hyphens can expose it
at the ends, where a second normalization then removes it.) -/
theorem normalizeProjectName_idem {x : Str}
    (hws : ∀ c ∈ x, c.isWhitespace = true → c = ' ') :
    normalizeProjectName (normalizeProjectName x) = normalizeProjectName x := by
  by_cases h0 : goTrimSpace x = []
  · have hx : normalizeProjectName x = [] := by
      simp only [normalizeProjectName, h0]
      rfl
    rw [hx]
    rfl
  · have hnorm : normalizeProjectName x =
        trimHyphens (collapseHyphens (replaceChar '_' '-' (replaceChar ' ' '-'
          (goToLower (camelSplit (goTrimSpace x)))))) := by
      simp only [normalizeProjectName, if_neg h0]
    set z4 := replaceChar '_' '-' (replaceChar ' ' '-'
      (goToLower (camelSplit (goTrimSpace x)))) with hz4
    have hz4chars : ∀ c ∈ z4, c.isUpper = false ∧ c.isWhitespace = false ∧
        c ≠ ' ' ∧ c ≠ '_' := by
      intro c hc
      rw [hz4] at hc
      rcases mem_replaceChar hc with rfl | ⟨hc1, hcnus⟩
      · exact ⟨by decide, by decide, by decide, by decide⟩
      · rcases mem_replaceChar hc1 with rfl | ⟨hc2, hcnsp⟩
        · exact ⟨by decide, by decide, by decide, hcnus⟩
        · rcases mem_goToLower hc2 with ⟨c₀, hc₀, rfl⟩
          refine ⟨char_toLower_not_upper c₀, ?_, hcnsp, hcnus⟩
          rw [char_toLower_whitespace]
          apply Bool.eq_false_iff.mpr
          intro hwsc
          rcases mem_camelSplit hc₀ with rfl | hmem
          · exact absurd hwsc (by decide)
          · have hsp : c₀ = ' ' := hws c₀ (trimEnds_subset hmem) hwsc
            subst hsp
            exact hcnsp (by decide)
    have hychars : ∀ c ∈ normalizeProjectName x, c.isUpper = false ∧
        c.isWhitespace = false ∧ c ≠ ' ' ∧ c ≠ '_' := by
      intro c hc
      rw [hnorm] at hc
      exact hz4chars c (mem_collapseHyphens (trimEnds_subset hc))
    have hchain : List.Chain' NotDD (normalizeProjectName x) := by
      rw [hnorm]
      exact List.Chain'.infix (collapseHyphens_chain z4) (trimEnds_inf _ _)
    by_cases hy0 : normalizeProjectName x = []
    · rw [hy0]
      rfl
    · have htrim : goTrimSpace (normalizeProjectName x) = normalizeProjectName x :=
        trimEnds_eq_self_of_all (fun c hc => (hychars c hc).2.1)
      conv_lhs => rw [normalizeProjectName]
      dsimp only
      rw [htrim]
      rw [if_neg hy0]
      rw [camelSplit_eq_self (fun c hc => (hychars c hc).1)]
      rw [goToLower_eq_self (fun c hc => (hychars c hc).1)]
      rw [replaceChar_eq_self (fun c hc => (hychars c hc).2.2.1)]
      rw [replaceChar_eq_self (fun c hc => (hychars c hc).2.2.2)]
      rw [collapseHyphens_eq_self hchain]
      apply trimEnds_eq_self
      · apply dropWhile_eq_self_of_head
        intro a t hat
        have hat' : trimHyphens (collapseHyphens z4) = a :: t := by
          rw [← hnorm]; exact hat
        exact trimEnds_head_false hat'
      · apply dropWhile_eq_self_of_head
        intro a t hat
        have hat' : (trimHyphens (collapseHyphens z4)).reverse = a :: t := by
          rw [← hnorm]; exact hat
        exact trimEnds_reverse_head_false hat'

/-- **C8 (counterexample)** Normalization is not idempotent on every
string: `"-\ta"` normalizes to `"\ta"` (the hyphen trim exposes the tab),
and a second normalization trims the tab away, yielding `"a"`. -/
theorem normalizeProjectName_not_idempotent :
    normalizeProjectName (normalizeProjectName ['-', '\t', 'a']) ≠
      normalizeProjectName ['-', '\t', 'a'] := by decide

/-- Witness for the amended C8 at a concrete input whose whitespace is all
plain spaces. -/
theorem normalizeProjectName_idem_witness :
    (∀ c ∈ "My Project_Name".data, c.isWhitespace = true → c = ' ') ∧
    normalizeProjectName (normalizeProjectName "My Project_Name".data) =
      normalizeProjectName "My Project_Name".data :=
  ⟨by decide, normalizeProjectName_idem (by decide)⟩

/-! ## C3: the field-level fuzzy match against its specification -/

/-- The claim's token-level rules, per token: 200 for token equality, 150
when either is a prefix of the other, `140 - 20·distance` when the
Levenshtein distance is within the allowed bound, no score otherwise. -/
def tokenScoreSpec (needle w : Str) : Option Nat :=
  if w = needle then some 200
  else if needle <+: w ∨ w <+: needle then some 150
  else
    let d := levenshtein needle w
    if d ≤ allowedDistance (max needle.length w.length) then some (140 - 20 * d) else none

/-- The claim's field-level rules applied literally to the given needle and
haystack: 200 on equality, 180 on prefix, 160 on substring, otherwise the
best token-level score over the haystack's tokens, and no match when no
rule applies. -/
def fuzzySpecLiteral (needle hay : Str) : Option Nat :=
  if needle = hay then some 200
  else if needle <+: hay then some 180
  else if needle <:+: hay then some 160
  else ((tokenize hay).filterMap (tokenScoreSpec needle)).max?

/-- The amended specification of the field-level fuzzy match: lowercase and
trim both arguments, report no match when either becomes empty, then apply
the claim's rules literally. -/
def fuzzySpec (needle0 hay0 : Str) : Option Nat :=
  let needle := goToLower (goTrimSpace needle0)
  let hay := goToLower (goTrimSpace hay0)
  if needle = [] ∨ hay = [] then none
  else fuzzySpecLiteral needle hay

theorem allowedDistance_le_three (n : Nat) : allowedDistance n ≤ 3 := by
  unfold allowedDistance
  split_ifs <;> omega

theorem tokenScoreSpec_pos {needle w : Str} {s : Nat}
    (h : tokenScoreSpec needle w = some s) : 0 < s := by
  unfold tokenScoreSpec at h
  dsimp only at h
  split_ifs at h with h1 h2 h3
  · cases h; omega
  · cases h; omega
  · cases h
    have := allowedDistance_le_three (max needle.length w.length)
    omega

/-- The Go token-scan step is the per-token spec score folded with `max`. -/
theorem tokenBestStep_eq (needle : Str) (best : Nat) (w : Str) :
    tokenBestStep needle best w =
      match tokenScoreSpec needle w with
      | some s => max best s
      | none => best := by
  unfold tokenBestStep tokenScoreSpec
  dsimp only
  split_ifs with h1 h2 h3
  · rfl
  · rfl
  · rw [Nat.mul_comm]
  · rfl

theorem foldl_max_eq : ∀ (l : List Nat) (a : Nat), l.foldl max a = max a (l.foldl max 0)
  | [], a => by simp
  | x :: l, a => by
    rw [List.foldl_cons, List.foldl_cons, foldl_max_eq l (max a x),
      foldl_max_eq l (max 0 x)]
    simp [Nat.max_assoc, Nat.zero_max]

theorem le_foldl_max : ∀ (l : List Nat) (a : Nat), a ≤ l.foldl max a
  | [], _ => le_refl _
  | x :: l, a => by
    rw [List.foldl_cons]
    exact le_trans (Nat.le_max_left a x) (le_foldl_max l (max a x))

theorem foldl_step_max (f : Str → Option Nat) :
    ∀ (ws : List Str) (acc : Nat),
      ws.foldl (fun best w => match f w with | some s => max best s | none => best) acc =
        max acc ((ws.filterMap f).foldl max 0)
  | [], acc => by simp
  | w :: ws, acc => by
    rw [List.foldl_cons, List.filterMap_cons]
    rcases hf : f w with _ | s
    · rw [foldl_step_max f ws acc]
    · dsimp only
      rw [List.foldl_cons, foldl_step_max f ws (max acc s), foldl_max_eq _ (max 0 s)]
      simp [Nat.max_assoc, Nat.zero_max]

/-- The Go fold-with-best-and-positivity-check equals the best (maximum)
token score of the specification. -/
theorem fuzzy_best_eq_max (needle : Str) (ws : List Str) :
    (if ws.foldl (tokenBestStep needle) 0 > 0 then
      some (ws.foldl (tokenBestStep needle) 0) else none) =
      (ws.filterMap (tokenScoreSpec needle)).max? := by
  have hfun : ws.foldl (tokenBestStep needle) 0 =
      ws.foldl (fun best w => match tokenScoreSpec needle w with
        | some s => max best s
        | none => best) 0 :=
    List.foldl_ext _ _ 0 (fun a w _ => tokenBestStep_eq needle a w)
  rw [hfun, foldl_step_max, Nat.zero_max]
  rcases hfm : ws.filterMap (tokenScoreSpec needle) with _ | ⟨x, xs⟩
  · rfl
  · have hmem : x ∈ ws.filterMap (tokenScoreSpec needle) := by
      rw [hfm]; exact List.mem_cons_self _ _
    obtain ⟨w, _, hw⟩ := List.mem_filterMap.mp hmem
    have hx : 0 < x := tokenScoreSpec_pos hw
    have hM : (x :: xs).foldl max 0 = xs.foldl max x := by
      rw [List.foldl_cons, Nat.zero_max]
    rw [hM, if_pos (lt_of_lt_of_le hx (le_foldl_max xs x))]
    rfl

/-- **C3 (amended)** For every needle and haystack, after trimming
whitespace and lowercasing both (and reporting no match when either
becomes empty), the field-level fuzzy match returns 200 on equality, 180
when the needle is a prefix of the haystack, 160 when it is a substring,
and otherwise the best token-level score over the haystack's tokens (200
for token equality, 150 when either is a prefix of the other, 140 minus 20
times the Levenshtein distance when within the allowed bound: 1 for longer
length at most 4, 2 for at most 8, else 3), reporting no match when no
rule applies. -/
theorem fuzzyFieldMatch_eq_spec (needle0 hay0 : Str) :
    fuzzyFieldMatch needle0 hay0 = fuzzySpec needle0 hay0 := by
  unfold fuzzyFieldMatch fuzzySpec fuzzySpecLiteral
  dsimp only
  by_cases hn : goToLower (goTrimSpace needle0) = [] <;>
    by_cases hh : goToLower (goTrimSpace hay0) = []
  · simp [hn, hh]
  · simp [hn, hh]
  · simp [hn, hh]
  · rw [if_neg (show ¬((goToLower (goTrimSpace needle0) = [] ||
          goToLower (goTrimSpace hay0) = []) = true) by simp [hn, hh]),
      if_neg (show ¬(goToLower (goTrimSpace needle0) = [] ∨
          goToLower (goTrimSpace hay0) = []) from fun h => h.elim hn hh)]
    by_cases heq : goToLower (goTrimSpace hay0) = goToLower (goTrimSpace needle0)
    · rw [if_pos heq, if_pos heq.symm]
    · rw [if_neg heq, if_neg (show ¬(goToLower (goTrimSpace needle0) =
          goToLower (goTrimSpace hay0)) from fun hc => heq hc.symm)]
      by_cases hpre : goToLower (goTrimSpace needle0) <+: goToLower (goTrimSpace hay0)
      · rw [if_pos hpre, if_pos hpre]
      · rw [if_neg hpre, if_neg hpre]
        by_cases hinf : goToLower (goTrimSpace needle0) <:+: goToLower (goTrimSpace hay0)
        · rw [if_pos hinf, if_pos hinf]
        · rw [if_neg hinf, if_neg hinf]
          exact fuzzy_best_eq_max _ _

/-- **C3 (counterexample)** The claim as stated — over the raw needle and
haystack, with no lowercasing — fails at needle `"A"`, haystack `"a"`: the
code lowercases both sides and returns 200 (equality), while the claim's
rules give no equality, prefix or substring match and a token edit
distance of 1, i.e. a score of 120. -/
theorem fuzzyFieldMatch_counterexample :
    fuzzyFieldMatch ['A'] ['a'] = some 200 ∧ fuzzySpecLiteral ['A'] ['a'] = some 120 := by
  decide

/-! ## C4: determinism of find_agents

`sort.Slice` in Go is an arbitrary (unstable) comparison sort; the result
of `FindAgents` is independent of the map-iteration order exactly because
the comparator (score descending, id ascending) is a strict total order on
candidates with distinct ids.  We prove the order lemmas for `strLt` and
`candLess`, a sorted-permutation equality lemma with antisymmetry only on
the members, and derive determinism plus the tie-break ordering. -/

theorem strLt_asymm : ∀ {a b : Str}, strLt a b = true → strLt b a = false
  | [], [], h => by simp [strLt] at h
  | [], _ :: _, _ => rfl
  | _ :: _, [], h => by simp [strLt] at h
  | a :: as, b :: bs, h => by
    unfold strLt at h ⊢
    by_cases hab : a < b
    · rw [if_neg (lt_asymm hab), if_pos hab]
    · rw [if_neg hab] at h
      by_cases hba : b < a
      · rw [if_pos hba] at h; cases h
      · rw [if_neg hba] at h
        rw [if_neg hba, if_neg hab]
        exact strLt_asymm h

theorem strLt_eq_of_not : ∀ {a b : Str}, strLt a b = false → strLt b a = false → a = b
  | [], [], _, _ => rfl
  | [], _ :: _, h, _ => by simp [strLt] at h
  | _ :: _, [], _, h' => by simp [strLt] at h'
  | a :: as, b :: bs, h, h' => by
    unfold strLt at h h'
    by_cases hab : a < b
    · rw [if_pos hab] at h; cases h
    · by_cases hba : b < a
      · rw [if_pos hba] at h'; cases h'
      · rw [if_neg hab, if_neg hba] at h
        rw [if_neg hba, if_neg hab] at h'
        rw [le_antisymm (le_of_not_lt hba) (le_of_not_lt hab), strLt_eq_of_not h h']

theorem strLt_trans : ∀ {a b c : Str},
    strLt a b = true → strLt b c = true → strLt a c = true
  | [], [], [], h, _ => by simp [strLt] at h
  | [], _ :: _, [], _, h' => by simp [strLt] at h'
  | [], _, _ :: _, _, _ => rfl
  | _ :: _, [], _, h, _ => by simp [strLt] at h
  | _ :: _, _ :: _, [], _, h' => by simp [strLt] at h'
  | a :: as, b :: bs, c :: cs, h, h' => by
    unfold strLt at h h' ⊢
    by_cases hab : a < b
    · by_cases hbc : b < c
      · rw [if_pos (lt_trans hab hbc)]
      · by_cases hcb : c < b
        · rw [if_neg hbc, if_pos hcb] at h'; cases h'
        · have hbceq : b = c := le_antisymm (le_of_not_lt hcb) (le_of_not_lt hbc)
          rw [if_pos (lt_of_lt_of_le hab (le_of_eq hbceq))]
    · by_cases hba : b < a
      · rw [if_neg hab, if_pos hba] at h; cases h
      · have habeq : a = b := le_antisymm (le_of_not_lt hba) (le_of_not_lt hab)
        rw [if_neg hab, if_neg hba] at h
        by_cases hbc : b < c
        · rw [if_pos (lt_of_le_of_lt (le_of_eq habeq) hbc)]
        · by_cases hcb : c < b
          · rw [if_neg hbc, if_pos hcb] at h'; cases h'
          · have hbceq : b = c := le_antisymm (le_of_not_lt hcb) (le_of_not_lt hbc)
            rw [if_neg hbc, if_neg hcb] at h'
            have haceq : a = c := habeq.trans hbceq
            have hnac : ¬ a < c := by rw [haceq]; exact lt_irrefl c
            have hnca : ¬ c < a := by rw [haceq]; exact lt_irrefl c
            rw [if_neg hnac, if_neg hnca]
            exact strLt_trans h h'

theorem strLt_not_trans {x y z : Str} (h : strLt x y = false)
    (h' : strLt y z = false) : strLt x z = false := by
  cases hxz : strLt x z
  · rfl
  · cases hyx : strLt y x
    · have hxy : x = y := strLt_eq_of_not h hyx
      subst hxy
      rw [h'] at hxz; cases hxz
    · cases hzy : strLt z y
      · have hyz : y = z := strLt_eq_of_not h' hzy
        subst hyz
        rw [h] at hxz; cases hxz
      · have h1 : strLt z x = true := strLt_trans hzy hyx
        have h2 : strLt z x = false := strLt_asymm hxz
        rw [h1] at h2; cases h2

theorem candLess_asymm {c d : Candidate} (h : candLess c d = true) :
    candLess d c = false := by
  unfold candLess at h ⊢
  by_cases hs : c.score = d.score
  · rw [if_pos hs] at h
    rw [if_pos hs.symm]
    exact strLt_asymm h
  · rw [if_neg hs] at h
    rw [if_neg (fun hc => hs hc.symm)]
    simp only [decide_eq_true_eq] at h
    simp only [decide_eq_false_iff_not]
    omega

theorem candLE_conn {c d : Candidate} (h : candLess c d = false)
    (h' : candLess d c = false) : c.score = d.score ∧ c.agent.id = d.agent.id := by
  unfold candLess at h h'
  by_cases hs : c.score = d.score
  · rw [if_pos hs] at h
    rw [if_pos hs.symm] at h'
    exact ⟨hs, strLt_eq_of_not h h'⟩
  · rw [if_neg hs] at h
    rw [if_neg (fun hc => hs hc.symm)] at h'
    simp only [decide_eq_false_iff_not] at h h'
    exact absurd (by omega : c.score = d.score) hs

theorem candLess_neg_trans {a b c : Candidate} (h : candLess b a = false)
    (h' : candLess c b = false) : candLess c a = false := by
  unfold candLess at h h' ⊢
  by_cases hba : b.score = a.score <;> by_cases hcb : c.score = b.score
  · rw [if_pos hba] at h
    rw [if_pos hcb] at h'
    rw [if_pos (hcb.trans hba)]
    exact strLt_not_trans h' h
  · rw [if_pos hba] at h
    rw [if_neg hcb] at h'
    simp only [decide_eq_false_iff_not] at h'
    have hca : ¬ c.score = a.score := by omega
    rw [if_neg hca]
    simp only [decide_eq_false_iff_not]
    omega
  · rw [if_neg hba] at h
    rw [if_pos hcb] at h'
    simp only [decide_eq_false_iff_not] at h
    have hca : ¬ c.score = a.score := by omega
    rw [if_neg hca]
    simp only [decide_eq_false_iff_not]
    omega
  · rw [if_neg hba] at h
    rw [if_neg hcb] at h'
    simp only [decide_eq_false_iff_not] at h h'
    have hca : ¬ c.score = a.score := by omega
    rw [if_neg hca]
    simp only [decide_eq_false_iff_not]
    omega

/-- Two lists that are permutations of each other and both pairwise-ordered
by `r` are equal, provided `r` is antisymmetric on the members of the
first. -/
theorem eq_of_perm_of_pairwise {α : Type} {r : α → α → Prop} :
    ∀ {l₁ l₂ : List α},
      (∀ a ∈ l₁, ∀ b ∈ l₁, r a b → r b a → a = b) →
      l₁.Perm l₂ → l₁.Pairwise r → l₂.Pairwise r → l₁ = l₂
  | [], _, _, hp, _, _ => hp.nil_eq
  | _ :: _, [], _, hp, _, _ => hp.symm.nil_eq.symm
  | a :: t₁, b :: t₂, hanti, hp, hs₁, hs₂ => by
    have hab : a = b := by
      by_cases heq : a = b
      · exact heq
      · have ha2 : a ∈ b :: t₂ := hp.subset (List.mem_cons_self a t₁)
        have ha2' : a ∈ t₂ := by
          rcases List.mem_cons.mp ha2 with h | h
          · exact absurd h heq
          · exact h
        have hb1 : b ∈ a :: t₁ := hp.symm.subset (List.mem_cons_self b t₂)
        have hb1' : b ∈ t₁ := by
          rcases List.mem_cons.mp hb1 with h | h
          · exact absurd h.symm heq
          · exact h
        have hrab : r a b := (List.pairwise_cons.mp hs₁).1 b hb1'
        have hrba : r b a := (List.pairwise_cons.mp hs₂).1 a ha2'
        exact hanti a (List.mem_cons_self a t₁) b (List.mem_cons_of_mem a hb1')
          hrab hrba
    subst hab
    have hp' : t₁.Perm t₂ := hp.cons_inv
    have hanti' : ∀ x ∈ t₁, ∀ y ∈ t₁, r x y → r y x → x = y := fun x hx y hy =>
      hanti x (List.mem_cons_of_mem a hx) y (List.mem_cons_of_mem a hy)
    rw [eq_of_perm_of_pairwise hanti' hp' hs₁.of_cons hs₂.of_cons]

/-- A candidate produced by the scoring loop carries the agent it was
produced from. -/
theorem candOf_agent {f : AgentSearchFilter} {a : AgentState} {c : Candidate}
    (h : candOf f a = some c) : c.agent = a := by
  unfold candOf at h
  rcases hm : matchAgent a.profile f with ⟨s, mt, ok⟩
  simp only [hm] at h
  cases ok
  · exact Option.noConfusion h
  · cases h; rfl

/-- The candidate ids form a sublist of the agent ids. -/
theorem candOf_ids_sublist (f : AgentSearchFilter) :
    ∀ l : List AgentState,
      ((l.filterMap (candOf f)).map (fun c => c.agent.id)).Sublist
        (l.map AgentState.id)
  | [] => List.Sublist.slnil
  | a :: l => by
    simp only [List.filterMap_cons, List.map_cons]
    rcases hga : candOf f a with _ | c
    · exact (candOf_ids_sublist f l).cons _
    · show List.Sublist
        (c.agent.id :: ((l.filterMap (candOf f)).map (fun c => c.agent.id)))
        (a.id :: (l.map AgentState.id))
      rw [candOf_agent hga]
      exact (candOf_ids_sublist f l).cons₂ _

/-- Distinct agent ids give distinct candidate ids. -/
theorem candOf_ids_nodup {f : AgentSearchFilter} {l : List AgentState}
    (h : (l.map AgentState.id).Nodup) :
    ((l.filterMap (candOf f)).map (fun c => c.agent.id)).Nodup :=
  List.Nodup.sublist (candOf_ids_sublist f l) h

/-- The model sort's relation is total. -/
theorem candLE_isTotal : IsTotal Candidate (fun c d => candLE c d = true) := by
  constructor
  intro c d
  unfold candLE
  cases h : candLess d c
  · exact Or.inl rfl
  · right
    rw [candLess_asymm h]
    rfl

/-- The model sort's relation is transitive. -/
theorem candLE_isTrans : IsTrans Candidate (fun c d => candLE c d = true) := by
  constructor
  intro a b c hab hbc
  unfold candLE at hab hbc ⊢
  rw [Bool.not_eq_true'] at hab hbc ⊢
  exact candLess_neg_trans hab hbc

/-- Scoring, sorting and tier selection do not depend on the order the
registry map was materialized in, as long as agent ids are distinct. -/
theorem findAgentsChosen_perm (f : AgentSearchFilter) {l₁ l₂ : List AgentState}
    (hp : l₁.Perm l₂) (hnd : (l₁.map AgentState.id).Nodup) :
    findAgentsChosen l₁ f = findAgentsChosen l₂ f := by
  haveI := candLE_isTotal
  haveI := candLE_isTrans
  have hpall : (l₁.filterMap (candOf (normalizeFilter f))).Perm
      (l₂.filterMap (candOf (normalizeFilter f))) := hp.filterMap _
  have hnd₁ : ((l₁.filterMap (candOf (normalizeFilter f))).map
      (fun c => c.agent.id)).Nodup := candOf_ids_nodup hnd
  have hs₁ : (List.insertionSort (fun c d => candLE c d = true)
      (l₁.filterMap (candOf (normalizeFilter f)))).Pairwise
      (fun c d => candLE c d = true) :=
    List.sorted_insertionSort _ _
  have hs₂ : (List.insertionSort (fun c d => candLE c d = true)
      (l₂.filterMap (candOf (normalizeFilter f)))).Pairwise
      (fun c d => candLE c d = true) :=
    List.sorted_insertionSort _ _
  have hps : (List.insertionSort (fun c d => candLE c d = true)
      (l₁.filterMap (candOf (normalizeFilter f)))).Perm
      (List.insertionSort (fun c d => candLE c d = true)
        (l₂.filterMap (candOf (normalizeFilter f)))) :=
    (List.perm_insertionSort _ _).trans
      (hpall.trans (List.perm_insertionSort _ _).symm)
  have hanti : ∀ x ∈ List.insertionSort (fun c d => candLE c d = true)
      (l₁.filterMap (candOf (normalizeFilter f))),
      ∀ y ∈ List.insertionSort (fun c d => candLE c d = true)
        (l₁.filterMap (candOf (normalizeFilter f))),
      candLE x y = true → candLE y x = true → x = y := by
    intro x hx y hy hxy hyx
    have hx' : x ∈ l₁.filterMap (candOf (normalizeFilter f)) :=
      (List.perm_insertionSort _ _).subset hx
    have hy' : y ∈ l₁.filterMap (candOf (normalizeFilter f)) :=
      (List.perm_insertionSort _ _).subset hy
    unfold candLE at hxy hyx
    rw [Bool.not_eq_true'] at hxy hyx
    exact List.inj_on_of_nodup_map hnd₁ hx' hy' (candLE_conn hyx hxy).2
  have hsort := eq_of_perm_of_pairwise hanti hps hs₁ hs₂
  unfold findAgentsChosen
  dsimp only
  by_cases h0 : l₁.filterMap (candOf (normalizeFilter f)) = []
  · have h0' : l₂.filterMap (candOf (normalizeFilter f)) = [] := by
      rw [h0] at hpall
      exact hpall.nil_eq.symm
    rw [if_pos h0, if_pos h0']
  · have h0' : ¬ l₂.filterMap (candOf (normalizeFilter f)) = [] := by
      intro hc
      rw [hc] at hpall
      exact h0 hpall.symm.nil_eq.symm
    rw [if_neg h0, if_neg h0', hsort]

/-- The chosen tier lists candidates with equal scores in strictly
ascending id order (given distinct registry ids). -/
theorem findAgentsChosen_pairwise (l : List AgentState) (f : AgentSearchFilter)
    (hnd : (l.map AgentState.id).Nodup) :
    (findAgentsChosen l f).Pairwise
      (fun c d => c.score = d.score → strLt c.agent.id d.agent.id = true) := by
  haveI := candLE_isTotal
  haveI := candLE_isTrans
  have hnd₁ : ((l.filterMap (candOf (normalizeFilter f))).map
      (fun c => c.agent.id)).Nodup := candOf_ids_nodup hnd
  have hs : (List.insertionSort (fun c d => candLE c d = true)
      (l.filterMap (candOf (normalizeFilter f)))).Pairwise
      (fun c d => candLE c d = true) :=
    List.sorted_insertionSort _ _
  have hndmap : ((List.insertionSort (fun c d => candLE c d = true)
      (l.filterMap (candOf (normalizeFilter f)))).map
      (fun c => c.agent.id)).Pairwise (fun x y => x ≠ y) :=
    (((List.perm_insertionSort _ _).map _).nodup_iff).mpr hnd₁
  have hne : (List.insertionSort (fun c d => candLE c d = true)
      (l.filterMap (candOf (normalizeFilter f)))).Pairwise
      (fun c d => c.agent.id ≠ d.agent.id) := List.pairwise_map.mp hndmap
  have hP : (List.insertionSort (fun c d => candLE c d = true)
      (l.filterMap (candOf (normalizeFilter f)))).Pairwise
      (fun c d => c.score = d.score → strLt c.agent.id d.agent.id = true) := by
    refine (hs.and hne).imp ?_
    intro c d h hsc
    have h1 : candLess d c = false := by
      have := h.1
      unfold candLE at this
      rw [Bool.not_eq_true'] at this
      exact this
    unfold candLess at h1
    rw [if_pos hsc.symm] at h1
    cases h2 : strLt c.agent.id d.agent.id
    · exact absurd (strLt_eq_of_not h2 h1) h.2
    · rfl
  unfold findAgentsChosen
  dsimp only
  split
  · exact List.Pairwise.nil
  · split
    · exact List.Pairwise.sublist (List.filter_sublist _) hP
    · exact List.Pairwise.sublist (List.filter_sublist _) hP

/-- **C4** `find_agents` is deterministic given the current registry
state: two evaluations with the same filter over two materializations of
the same registry (permutations of one agent list, with the registry's
distinct agent ids) return identical result lists, and candidates with
equal scores always appear in ascending agent-id order. -/
theorem findAgents_deterministic (l₁ l₂ : List AgentState) (f : AgentSearchFilter)
    (hp : l₁.Perm l₂) (hnd : (l₁.map AgentState.id).Nodup) :
    findAgentsM l₁ f = findAgentsM l₂ f ∧
    (findAgentsChosen l₁ f).Pairwise
      (fun c d => c.score = d.score → strLt c.agent.id d.agent.id = true) := by
  constructor
  · unfold findAgentsM
    rw [findAgentsChosen_perm f hp hnd]
  · exact findAgentsChosen_pairwise l₁ f hnd

/-- Two concrete agents on the same project, listed in both orders. -/
def witFA1 : AgentState where
  id := "ag-a".data
  profile :=
    { name := "alpha".data, description := [], project := "proj".data,
      role := "dev".data, github := [], branch := [], specialization := [],
      status := "idle".data }
  subject := []
  sessionID := []
  harness := []
  queue := []
  lastSeen := 0
  lastFetch := 0

/-- The second agent differs only in id and name. -/
def witFA2 : AgentState :=
  { witFA1 with
    id := "ag-b".data
    profile := { witFA1.profile with name := "beta".data } }

/-- A project-only search filter. -/
def witFilter : AgentSearchFilter where
  query := []
  project := "proj".data
  role := []
  specialization := []
  limit := 0

/-- Witness for C4: the two orders of the two-agent registry give the same
find result, and the tie-break ordering holds. -/
theorem findAgents_deterministic_witness :
    findAgentsM [witFA1, witFA2] witFilter = findAgentsM [witFA2, witFA1] witFilter ∧
    (findAgentsChosen [witFA1, witFA2] witFilter).Pairwise
      (fun c d => c.score = d.score → strLt c.agent.id d.agent.id = true) :=
  findAgents_deterministic [witFA1, witFA2] [witFA2, witFA1] witFilter
    (List.Perm.swap witFA2 witFA1 []) (by decide)

end RelayMesh
